import Mathlib

/-!
Verification development for the chat request gateway of the
azure-search-python-samples repository (Davenport assistant).

The Python sources embedded here are:
  - Gent-Davenport-Maintenance/func-api/function_app.py
      (transform_transcript_urls_to_youtube, extract_reasoning_trace,
       chat, chat_stream / event_generator)
  - Gent-Davenport-Maintenance/static-web-app-direct/api/chat/__init__.py (main)

Modelling conventions:
  - Python dynamic values (parsed JSON bodies, response dictionaries) are
    modelled by the inductive type JsonVal.  Numbers are modelled as
    integers; none of the verified code paths depends on float values.
  - Python exceptions are modelled with the PyErr enumeration and Except;
    a try/except block becomes an explicit match on the Except value.
  - Wall-clock reads (time.time()) are modelled by a clock function from
    the index of the call to a millisecond value.
  - The external backend is modelled by its observable behaviour: the
    result of conversations.create and the result of responses.create
    (for streaming: the list of stream events followed by an optional
    raised exception).
-/

namespace DavenportGateway

/-- JsonVal models a Python value produced by json parsing or by
response.to_dict(): None, bool, int, str, list, dict. -/
inductive JsonVal where
  | null : JsonVal
  | bool : Bool → JsonVal
  | num : Int → JsonVal
  | str : String → JsonVal
  | arr : List JsonVal → JsonVal
  | obj : List (String × JsonVal) → JsonVal
deriving Repr

/-- PyErr enumerates the Python exception classes distinguished by the
embedded code paths. -/
inductive PyErr where
  | attributeError : PyErr
  | typeError : PyErr
  | keyError : PyErr
  | jsonDecodeError : PyErr
deriving Repr, DecidableEq

namespace JsonVal

/-- Python equality of a value against a string literal: only a str value
can compare equal to a str. -/
def eqStr (v : JsonVal) (s : String) : Bool :=
  match v with
  | .str t => t == s
  | _ => false

/-- Python truthiness: None, False, 0, empty string, empty list and empty
dict are falsy; everything else is truthy. -/
def truthy : JsonVal → Bool
  | .null => false
  | .bool b => b
  | .num n => n != 0
  | .str s => s ≠ ""
  | .arr l => !l.isEmpty
  | .obj l => !l.isEmpty

/-- Python dict.get(key, default) for a JsonVal receiver: an
AttributeError when the receiver is not a dict, the default when the key
is absent. -/
def get (v : JsonVal) (key : String) (dflt : JsonVal) : Except PyErr JsonVal :=
  match v with
  | .obj kvs =>
      match kvs.lookup key with
      | some w => .ok w
      | none => .ok dflt
  | _ => .error .attributeError

/-- Substring test on character lists. -/
def hasSubstr (needle : List Char) : List Char → Bool
  | [] => needle.isEmpty
  | c :: rest => needle.isPrefixOf (c :: rest) || hasSubstr needle rest

/-- Python membership test key in v.  Dict: key membership; list: element
membership; str: substring test; other receivers raise TypeError. -/
def contains (key : String) (v : JsonVal) : Except PyErr Bool :=
  match v with
  | .obj kvs => .ok (kvs.any (fun kv => kv.1 == key))
  | .arr l => .ok (l.any (fun x => eqStr x key))
  | .str s => .ok (hasSubstr key.data s.data)
  | _ => .error .typeError

/-- Python subscript v[key] with a string key: dict lookup (KeyError when
missing) or TypeError for non-dict receivers. -/
def subscr (v : JsonVal) (key : String) : Except PyErr JsonVal :=
  match v with
  | .obj kvs =>
      match kvs.lookup key with
      | some w => .ok w
      | none => .error .keyError
  | _ => .error .typeError

/-- Python iteration over a value: list elements, dict keys, string
characters; other receivers raise TypeError. -/
def iter : JsonVal → Except PyErr (List JsonVal)
  | .arr l => .ok l
  | .obj kvs => .ok (kvs.map (fun kv => .str kv.1))
  | .str s => .ok (s.toList.map (fun c => .str (String.mk [c])))
  | _ => .error .typeError

/-- Python repr of a value, used inside str() of containers.  Escaping of
quotes inside strings is not modelled; no verified property depends on it. -/
def reprPy : JsonVal → String
  | .null => "None"
  | .bool b => if b then "True" else "False"
  | .num n => toString n
  | .str s => "'" ++ s ++ "'"
  | .arr l => "[" ++ String.intercalate ", " (reprList l) ++ "]"
  | .obj kvs => "\x7b" ++ String.intercalate ", " (reprObj kvs) ++ "\x7d"
where
  reprList : List JsonVal → List String
    | [] => []
    | x :: xs => reprPy x :: reprList xs
  reprObj : List (String × JsonVal) → List String
    | [] => []
    | (k, v) :: xs => ("'" ++ k ++ "': " ++ reprPy v) :: reprObj xs

/-- Python str() of a value: strings unquoted, containers via repr. -/
def strPy : JsonVal → String
  | .str s => s
  | v => reprPy v

end JsonVal

/-! Constants from function_app.py. -/

def STORAGE_ACCOUNT : String := "stj6lw7vswhnnhw"

def TRANSCRIPT_CONTAINER : String := "video-training"

/-- YouTube video mapping: transcript filename (without .md) to YouTube
video id. -/
def YOUTUBE_VIDEO_MAP : List (String × String) :=
  [ ("Davenport Machine Model B - Basic Identification (part 1)", "Bgqf1gt0y10"),
    ("Davenport Machine Model B - Basic Identification (part 2)", "7NYKOGs6CDs"),
    ("Davenport Machine Model B - Cross Working Tools (part 1)", "rINsPjoNOlA"),
    ("Davenport Machine Model B - Cross Working Tools (part 2)", "fb0zCgmn55s"),
    ("Davenport Machine Model B - The Work Spindles", "lwnB7ysRsGs"),
    ("Davenport Machine Model B - Stocking", "22tb3sbqquM"),
    ("Davenport Machine Model B - End Working Tools", "NMeeZX7ie44"),
    ("Davenport Machine Model B - E2726 Size Toll Holder", "diMpiXFFPVo"),
    ("Davenport Machine Model B - Chuck and Feed Mechanism", "C8NLYDmM9jk"),
    ("Davenport Machine Model B - Preventive Maintenance", "RIxzlj3ANTY") ]

/-- Agent routing by reasoning level. -/
def AGENTS : List (String × String) :=
  [ ("fast", "davenport-fast"),
    ("balanced", "davenport-balanced"),
    ("thorough", "davenport-assistant") ]

def DEFAULT_AGENT : String := "davenport-assistant"

/-! Model of urllib.parse.unquote: percent-escapes are decoded to bytes
and byte runs are decoded as UTF-8.  Invalid escapes are kept literally,
invalid byte sequences decode to the replacement character, matching the
errors=replace behaviour closely enough for the ASCII names used by the
mapping table. -/

/-- Hexadecimal digit value of a character, if any. -/
def hexVal (c : Char) : Option Nat :=
  if '0' ≤ c ∧ c ≤ '9' then some (c.toNat - '0'.toNat)
  else if 'a' ≤ c ∧ c ≤ 'f' then some (c.toNat - 'a'.toNat + 10)
  else if 'A' ≤ c ∧ c ≤ 'F' then some (c.toNat - 'A'.toNat + 10)
  else none

/-- Fuel-bounded worker splitting the input into literal characters and
percent-encoded bytes; fuel equal to the input length suffices. -/
def percentTokensGo : Nat → List Char → List (Sum Char Nat)
  | 0, _ => []
  | _, [] => []
  | fuel + 1, '%' :: a :: b :: rest =>
      match hexVal a, hexVal b with
      | some x, some y => Sum.inr (16 * x + y) :: percentTokensGo fuel rest
      | _, _ => Sum.inl '%' :: percentTokensGo fuel (a :: b :: rest)
  | fuel + 1, c :: rest => Sum.inl c :: percentTokensGo fuel rest

/-- Splits the input into literal characters and percent-encoded bytes. -/
def percentTokens (l : List Char) : List (Sum Char Nat) := percentTokensGo l.length l

/-- Fuel-bounded worker for UTF-8 decoding; each step consumes at least
one byte, so fuel equal to the length of the input suffices. -/
def utf8DecodeGo : Nat → List Nat → List Char
  | _, [] => []
  | 0, _ => []
  | fuel + 1, b :: bs =>
      if b < 0x80 then Char.ofNat b :: utf8DecodeGo fuel bs
      else if 0xC0 ≤ b ∧ b < 0xE0 then
        match bs with
        | c1 :: bs' =>
            if 0x80 ≤ c1 ∧ c1 < 0xC0 then
              Char.ofNat ((b - 0xC0) * 0x40 + (c1 - 0x80)) :: utf8DecodeGo fuel bs'
            else '�' :: utf8DecodeGo fuel bs
        | [] => ['�']
      else if 0xE0 ≤ b ∧ b < 0xF0 then
        match bs with
        | c1 :: c2 :: bs' =>
            if (0x80 ≤ c1 ∧ c1 < 0xC0) ∧ (0x80 ≤ c2 ∧ c2 < 0xC0) then
              Char.ofNat ((b - 0xE0) * 0x1000 + (c1 - 0x80) * 0x40 + (c2 - 0x80)) ::
                utf8DecodeGo fuel bs'
            else '�' :: utf8DecodeGo fuel bs
        | _ => '�' :: utf8DecodeGo fuel bs
      else '�' :: utf8DecodeGo fuel bs

/-- UTF-8 decoding of a byte list, one replacement character per
undecodable byte. -/
def utf8Decode (bs : List Nat) : List Char := utf8DecodeGo bs.length bs

/-- Fuel-bounded worker regrouping the token list, UTF-8 decoding each
maximal byte run; fuel equal to the token count suffices. -/
def detokenizeGo : Nat → List (Sum Char Nat) → List Char
  | 0, _ => []
  | _, [] => []
  | fuel + 1, Sum.inl c :: rest => c :: detokenizeGo fuel rest
  | fuel + 1, Sum.inr b :: rest =>
      utf8Decode (b :: (rest.takeWhile Sum.isRight).map (fun t => (t.getRight?).getD 0)) ++
        detokenizeGo fuel (rest.dropWhile Sum.isRight)

/-- Regroups the token list, UTF-8 decoding each maximal byte run. -/
def detokenize (ts : List (Sum Char Nat)) : List Char := detokenizeGo ts.length ts

/-- Model of urllib.parse.unquote. -/
def unquote (s : String) : String := String.mk (detokenize (percentTokens s.data))

/-! Model of json.loads.  The grammar follows the Python json module:
objects, arrays, double-quoted strings with the standard escapes, the
literals true, false, null, and integer numbers.  Two simplifications are
made, neither reachable from any verified property: float literals are
rejected rather than parsed (no verified code path produces or consumes a
float), and a \u escape decodes to the code point directly without
surrogate pairing. -/

/-- JSON whitespace. -/
def isJsonWs (c : Char) : Bool :=
  c = ' ' || c = '\t' || c = '\n' || c = '\r'

/-- Drops leading JSON whitespace. -/
def skipWs (l : List Char) : List Char := l.dropWhile isJsonWs

/-- Numeric value of a digit run. -/
def natOfDigits (ds : List Char) : Nat :=
  ds.foldl (fun a c => 10 * a + (c.toNat - 48)) 0

/-- Parses a JSON number (integers only; a fraction or exponent is
rejected, see the module comment above). -/
def parseNum (l : List Char) : Option (JsonVal × List Char) :=
  let p := match l with
    | '-' :: r => (true, r)
    | _ => (false, l)
  let neg := p.1
  let l1 := p.2
  let ds := l1.takeWhile Char.isDigit
  let r := l1.dropWhile Char.isDigit
  if ds.isEmpty then none
  else if 1 < ds.length ∧ ds.head? = some '0' then none
  else
    match r with
    | '.' :: _ => none
    | 'e' :: _ => none
    | 'E' :: _ => none
    | _ =>
        let n : Int := natOfDigits ds
        some (.num (if neg then -n else n), r)

/-- Parses the body of a JSON string after the opening quote. -/
def parseStrGo : Nat → List Char → List Char → Option (String × List Char)
  | 0, _, _ => none
  | _, [], _ => none
  | fuel + 1, c :: r, acc =>
      if c = '"' then some (String.mk acc.reverse, r)
      else if c = '\\' then
        match r with
        | [] => none
        | e :: r' =>
            if e = '"' then parseStrGo fuel r' ('"' :: acc)
            else if e = '\\' then parseStrGo fuel r' ('\\' :: acc)
            else if e = '/' then parseStrGo fuel r' ('/' :: acc)
            else if e = 'b' then parseStrGo fuel r' ('\x08' :: acc)
            else if e = 'f' then parseStrGo fuel r' ('\x0c' :: acc)
            else if e = 'n' then parseStrGo fuel r' ('\n' :: acc)
            else if e = 'r' then parseStrGo fuel r' ('\r' :: acc)
            else if e = 't' then parseStrGo fuel r' ('\t' :: acc)
            else if e = 'u' then
              match r' with
              | h1 :: h2 :: h3 :: h4 :: r'' =>
                  match hexVal h1, hexVal h2, hexVal h3, hexVal h4 with
                  | some a, some b, some c3, some d =>
                      parseStrGo fuel r''
                        (Char.ofNat (((a * 16 + b) * 16 + c3) * 16 + d) :: acc)
                  | _, _, _, _ => none
              | _ => none
            else none
      else if c.toNat < 0x20 then none
      else parseStrGo fuel r (c :: acc)

mutual

/-- Parses one JSON value. -/
def parseVal : Nat → List Char → Option (JsonVal × List Char)
  | 0, _ => none
  | fuel + 1, l =>
      match skipWs l with
      | 't' :: 'r' :: 'u' :: 'e' :: r => some (.bool true, r)
      | 'f' :: 'a' :: 'l' :: 's' :: 'e' :: r => some (.bool false, r)
      | 'n' :: 'u' :: 'l' :: 'l' :: r => some (.null, r)
      | '"' :: r =>
          match parseStrGo (r.length + 1) r [] with
          | some (s, r') => some (.str s, r')
          | none => none
      | '[' :: r =>
          match skipWs r with
          | ']' :: r' => some (.arr [], r')
          | r' => parseElems fuel r' []
      | '\x7b' :: r =>
          match skipWs r with
          | '\x7d' :: r' => some (.obj [], r')
          | r' => parseMembers fuel r' []
      | l' => parseNum l'

/-- Parses the elements of a non-empty JSON array. -/
def parseElems : Nat → List Char → List JsonVal → Option (JsonVal × List Char)
  | 0, _, _ => none
  | fuel + 1, l, acc =>
      match parseVal fuel l with
      | none => none
      | some (v, r) =>
          match skipWs r with
          | ',' :: r' => parseElems fuel r' (acc ++ [v])
          | ']' :: r' => some (.arr (acc ++ [v]), r')
          | _ => none

/-- Parses the members of a non-empty JSON object. -/
def parseMembers : Nat → List Char → List (String × JsonVal) → Option (JsonVal × List Char)
  | 0, _, _ => none
  | fuel + 1, l, acc =>
      match skipWs l with
      | '"' :: r =>
          match parseStrGo (r.length + 1) r [] with
          | none => none
          | some (k, r1) =>
              match skipWs r1 with
              | ':' :: r2 =>
                  match parseVal fuel r2 with
                  | none => none
                  | some (v, r3) =>
                      match skipWs r3 with
                      | ',' :: r4 => parseMembers fuel r4 (acc ++ [(k, v)])
                      | '\x7d' :: r4 => some (.obj (acc ++ [(k, v)]), r4)
                      | _ => none
              | _ => none
      | _ => none

end

/-- Model of json.loads: returns none where the Python function raises
json.JSONDecodeError. -/
def jsonLoads (s : String) : Option JsonVal :=
  match parseVal (2 * s.length + 4) s.data with
  | some (v, r) => if skipWs r = [] then some v else none
  | none => none

/-- Leftmost match of the pattern Retrieved (digits) documents, the
re.search call of the trace extractor. -/
def searchRetrievedGo : List Char → Option Nat
  | [] => none
  | c :: rest =>
      let l := c :: rest
      if ("Retrieved ".data).isPrefixOf l then
        let after := l.drop 10
        let ds := after.takeWhile Char.isDigit
        let r2 := after.dropWhile Char.isDigit
        if !ds.isEmpty && (" documents".data).isPrefixOf r2 then some (natOfDigits ds)
        else searchRetrievedGo rest
      else searchRetrievedGo rest

/-! Model of extract_reasoning_trace (blocking-mode trace extractor,
function_app.py lines 168 to 216).  The outer try/except Exception is
modelled by Except Trace: an error value carries the partially filled
trace that the except branch returns.  The inner try catches only
json.JSONDecodeError and KeyError; an AttributeError escapes it and is
caught by the outer handler. -/

/-- Trace record built by the extractor, with the zero and empty defaults
of the source. -/
structure Trace where
  agent : Option String
  query_intents : JsonVal
  sources_found : Nat
  tokens : Option (JsonVal × JsonVal × JsonVal)
deriving Repr

/-- Initial trace value of the extractor. -/
def Trace.init : Trace :=
  { agent := none, query_intents := .arr [], sources_found := 0, tokens := none }

/-- Agent block: if agent is in the dict, format name and version. -/
def extractAgentStep (d : JsonVal) (t : Trace) : Except Trace Trace :=
  match JsonVal.contains "agent" d with
  | .error _ => .error t
  | .ok false => .ok t
  | .ok true =>
      match JsonVal.subscr d "agent" with
      | .error _ => .error t
      | .ok ag =>
          match ag.get "name" (.str "unknown"), ag.get "version" (.str "?") with
          | .ok n, .ok v =>
              .ok { t with agent := some (n.strPy ++ " v" ++ v.strPy) }
          | _, _ => .error t

/-- Usage block: if usage is in the dict, read the three token counters. -/
def extractUsageStep (d : JsonVal) (t : Trace) : Except Trace Trace :=
  match JsonVal.contains "usage" d with
  | .error _ => .error t
  | .ok false => .ok t
  | .ok true =>
      match JsonVal.subscr d "usage" with
      | .error _ => .error t
      | .ok u =>
          match u.get "input_tokens" (.num 0), u.get "output_tokens" (.num 0),
              u.get "total_tokens" (.num 0) with
          | .ok i, .ok o, .ok tt => .ok { t with tokens := some (i, o, tt) }
          | _, _, _ => .error t

/-- Per-item processing of the output list: mcp_call items contribute
query intents (inner try) and a source count. -/
def processItem (item : JsonVal) (t : Trace) : Except Trace Trace :=
  match item.get "type" .null with
  | .error _ => .error t
  | .ok ty =>
      if ty.eqStr "mcp_call" then
        match item.get "arguments" (.str "\x7b\x7d") with
        | .error _ => .error t
        | .ok argsStr =>
            match
              (match argsStr with
               | .str s =>
                   match jsonLoads s with
                   | none => Except.ok t
                   | some args =>
                       match args.get "request" (.obj []) with
                       | .error _ => Except.error t
                       | .ok req =>
                           match req.get "knowledgeAgentIntents" (.arr []) with
                           | .error _ => Except.error t
                           | .ok intents =>
                               Except.ok { t with query_intents := intents }
               | _ => Except.error t) with
            | .error t1 => .error t1
            | .ok t1 =>
                match item.get "output" (.str "") with
                | .error _ => .error t1
                | .ok outv =>
                    match JsonVal.contains "Retrieved" outv with
                    | .error _ => .error t1
                    | .ok false => .ok t1
                    | .ok true =>
                        match outv with
                        | .str s =>
                            match searchRetrievedGo s.data with
                            | some n => .ok { t1 with sources_found := n }
                            | none => .ok t1
                        | _ => .error t1
      else .ok t

/-- Sequential processing of the output items. -/
def processItems : List JsonVal → Trace → Except Trace Trace
  | [], t => .ok t
  | it :: rest, t =>
      match processItem it t with
      | .error t' => .error t'
      | .ok t' => processItems rest t'

/-- Body of the try block of extract_reasoning_trace. -/
def extractTry (d : JsonVal) : Except Trace Trace :=
  match extractAgentStep d Trace.init with
  | .error t => .error t
  | .ok t1 =>
      match extractUsageStep d t1 with
      | .error t => .error t
      | .ok t2 =>
          match d.get "output" (.arr []) with
          | .error _ => .error t2
          | .ok outVal =>
              match outVal.iter with
              | .error _ => .error t2
              | .ok items => processItems items t2

/-- Model of extract_reasoning_trace: the outer except Exception returns
the partially filled trace instead of raising. -/
def extract_reasoning_trace (d : JsonVal) : Trace :=
  match extractTry d with
  | .ok t => t
  | .error t => t

/-- Per-item processing of the agentic-retrieval-pipeline-example variant
of the extractor: identical except that its inner try has a bare except,
so every failure inside the intents block is swallowed and processing
continues with the source count. -/
def processItemA (item : JsonVal) (t : Trace) : Except Trace Trace :=
  match item.get "type" .null with
  | .error _ => .error t
  | .ok ty =>
      if ty.eqStr "mcp_call" then
        match item.get "arguments" (.str "\x7b\x7d") with
        | .error _ => .error t
        | .ok argsStr =>
        let t1 :=
          match argsStr with
          | .str s =>
              match jsonLoads s with
              | none => t
              | some args =>
                  match args.get "request" (.obj []) with
                  | .error _ => t
                  | .ok req =>
                      match req.get "knowledgeAgentIntents" (.arr []) with
                      | .error _ => t
                      | .ok intents => { t with query_intents := intents }
          | _ => t
        match item.get "output" (.str "") with
        | .error _ => .error t1
        | .ok outv =>
            match JsonVal.contains "Retrieved" outv with
            | .error _ => .error t1
            | .ok false => .ok t1
            | .ok true =>
                match outv with
                | .str s =>
                    match searchRetrievedGo s.data with
                    | some n => .ok { t1 with sources_found := n }
                    | none => .ok t1
                | _ => .error t1
      else .ok t

/-- Sequential item processing of the agentic variant. -/
def processItemsA : List JsonVal → Trace → Except Trace Trace
  | [], t => .ok t
  | it :: rest, t =>
      match processItemA it t with
      | .error t' => .error t'
      | .ok t' => processItemsA rest t'

/-- Try-block body of the agentic variant (agent and usage blocks are
identical to the primary one). -/
def extractTryA (d : JsonVal) : Except Trace Trace :=
  match extractAgentStep d Trace.init with
  | .error t => .error t
  | .ok t1 =>
      match extractUsageStep d t1 with
      | .error t => .error t
      | .ok t2 =>
          match d.get "output" (.arr []) with
          | .error _ => .error t2
          | .ok outVal =>
              match outVal.iter with
              | .error _ => .error t2
              | .ok items => processItemsA items t2

/-- Model of the extract_reasoning_trace of
agentic-retrieval-pipeline-example/func-api/function_app.py. -/
def extract_reasoning_trace_agentic (d : JsonVal) : Trace :=
  match extractTryA d with
  | .ok t => t
  | .error t => t

/-! Model of transform_transcript_urls_to_youtube (function_app.py lines
104 to 165).  The two re.sub passes are hand-compiled into deterministic
scanners with exactly the Python matching semantics of the two concrete
patterns: leftmost non-overlapping matches; the link text is the maximal
run of characters other than a closing bracket; the non-greedy name group
takes the earliest terminator reachable without crossing a newline; the
optional timestamp group is greedy; the bare-URL pass checks the
one-character lookahead class or end of input.  The character classes for
whitespace and digits are the ASCII ones (no verified property uses
non-ASCII whitespace or digits). -/

/-- Literal URL head of an internal transcript link,
https storage account blob URL of the video-training container. -/
def TRANSCRIPT_URL_HEAD : List Char :=
  ("https://" ++ STORAGE_ACCOUNT ++ ".blob.core.windows.net/" ++
    TRANSCRIPT_CONTAINER ++ "/").data

/-- ASCII whitespace, the class matched by a Python regex backslash-s. -/
def isPyWs (c : Char) : Bool :=
  c = ' ' || c = '\t' || c = '\n' || c = '\r' || c = '\x0b' || c = '\x0c'

/-- Non-greedy name group of the markdown pass: the earliest point where
.md) follows a nonempty run of non-newline characters.  Returns the name
and the input after the consumed .md) terminator. -/
def findNameMdParen : Nat → List Char → List Char → Option (List Char × List Char)
  | 0, _, _ => none
  | _ + 1, _, [] => none
  | fuel + 1, acc, c :: rest =>
      if c = '\n' then none
      else if (".md)".data).isPrefixOf rest then some ((c :: acc).reverse, rest.drop 4)
      else findNameMdParen fuel (c :: acc) rest

/-- Lookahead class of the bare-URL pass: whitespace, double quote,
closing parenthesis, closing bracket, or end of input. -/
def lookaheadOk : List Char → Bool
  | [] => true
  | c :: _ => isPyWs c || c = '"' || c = ')' || c = ']'

/-- Non-greedy name group of the bare-URL pass: the earliest point where
.md followed by the lookahead class ends a nonempty run of non-newline
characters.  Returns the name and the input after the consumed .md. -/
def findNameMdLk : Nat → List Char → List Char → Option (List Char × List Char)
  | 0, _, _ => none
  | _ + 1, _, [] => none
  | fuel + 1, acc, c :: rest =>
      if c = '\n' then none
      else if (".md".data).isPrefixOf rest && lookaheadOk (rest.drop 3) then
        some ((c :: acc).reverse, rest.drop 3)
      else findNameMdLk fuel (c :: acc) rest

/-- Timestamp atom: one or two digits, colon, two digits, with the greedy
backtracking of the Python quantifier. -/
def tsMMSS (l : List Char) : Option (List Char × List Char) :=
  match l with
  | a :: b :: c :: d :: e :: rest =>
      if a.isDigit && b.isDigit && c = ':' && d.isDigit && e.isDigit then
        some ([a, b, c, d, e], rest)
      else if a.isDigit && b = ':' && c.isDigit && d.isDigit then
        some ([a, b, c, d], e :: rest)
      else none
  | a :: b :: c :: d :: rest =>
      if a.isDigit && b = ':' && c.isDigit && d.isDigit then
        some ([a, b, c, d], rest)
      else none
  | _ => none

/-- Timestamp token: an atom optionally followed by a dash and a second
atom (the range form). -/
def tsCore (l : List Char) : Option (List Char × List Char) :=
  match tsMMSS l with
  | none => none
  | some (t1, r) =>
      match r with
      | '-' :: r2 =>
          match tsMMSS r2 with
          | some (t2, r3) => some (t1 ++ '-' :: t2, r3)
          | none => some (t1, r)
      | _ => some (t1, r)

/-- Optional trailing timestamp group of the markdown pass: greedy
whitespace then a timestamp token, or nothing. -/
def matchTs (l : List Char) : Option (List Char) × List Char :=
  let r := l.dropWhile isPyWs
  match tsCore r with
  | some (ts, rest) => (some ts, rest)
  | none => (none, l)

/-- Splitting a character list on a separator character, the str.split
model used for timestamp arithmetic. -/
def splitOnChar (sep : Char) : List Char → List (List Char)
  | [] => [[]]
  | c :: r =>
      if c = sep then [] :: splitOnChar sep r
      else
        match splitOnChar sep r with
        | [] => [[c]]
        | h :: t => (c :: h) :: t

/-- Replacement function of the markdown pass: keeps the whole match when
the decoded name has no mapping, otherwise builds the YouTube link with
the optional start offset and the timestamp appended to the display
text. -/
def replaceWithYoutube (txt name : List Char) (tsOpt : Option (List Char))
    (matchedSpan : List Char) : List Char :=
  match YOUTUBE_VIDEO_MAP.lookup (unquote (String.mk name)) with
  | none => matchedSpan
  | some vid =>
      let baseUrl := ("https://www.youtube.com/watch?v=" ++ vid).data
      let url :=
        match tsOpt with
        | none => baseUrl
        | some ts =>
            let timePart := (splitOnChar '-' ts).headD []
            let parts := splitOnChar ':' timePart
            match parts with
            | [mins, secs] =>
                baseUrl ++ ("&t=" ++ toString (natOfDigits mins * 60 + natOfDigits secs)).data
            | _ => baseUrl
      let display :=
        match tsOpt with
        | none => txt
        | some ts => txt ++ ' ' :: ts
      '[' :: display ++ ']' :: '(' :: url ++ [')']

/-- Matcher of the markdown pass at the head of the input: returns the
emitted text and the remaining input on a match. -/
def m1 (l : List Char) : Option (List Char × List Char) :=
  match l with
  | '[' :: r1 =>
      let txt := r1.takeWhile (fun c => c ≠ ']')
      let r2 := r1.dropWhile (fun c => c ≠ ']')
      match r2 with
      | ']' :: r3 =>
          if txt.isEmpty then none
          else
            match r3 with
            | '(' :: r4 =>
                if TRANSCRIPT_URL_HEAD.isPrefixOf r4 then
                  let r5 := r4.drop TRANSCRIPT_URL_HEAD.length
                  match findNameMdParen r5.length [] r5 with
                  | none => none
                  | some (name, r6) =>
                      let p := matchTs r6
                      let rest := p.2
                      let matchedSpan := l.take (l.length - rest.length)
                      some (replaceWithYoutube txt name p.1 matchedSpan, rest)
                else none
            | _ => none
      | _ => none
  | _ => none

/-- Matcher of the bare-URL pass at the head of the input. -/
def m2 (l : List Char) : Option (List Char × List Char) :=
  if TRANSCRIPT_URL_HEAD.isPrefixOf l then
    let r := l.drop TRANSCRIPT_URL_HEAD.length
    match findNameMdLk r.length [] r with
    | none => none
    | some (name, rest) =>
        match YOUTUBE_VIDEO_MAP.lookup (unquote (String.mk name)) with
        | none => some (l.take (l.length - rest.length), rest)
        | some vid => some (("https://www.youtube.com/watch?v=" ++ vid).data, rest)
  else none

/-- Leftmost-scan driver of the markdown pass. -/
def pass1Go : Nat → List Char → List Char
  | 0, _ => []
  | _, [] => []
  | fuel + 1, c :: rest =>
      match m1 (c :: rest) with
      | some (em, r) => em ++ pass1Go fuel r
      | none => c :: pass1Go fuel rest

/-- Markdown pass of the rewriter. -/
def pass1 (l : List Char) : List Char := pass1Go l.length l

/-- Leftmost-scan driver of the bare-URL pass. -/
def pass2Go : Nat → List Char → List Char
  | 0, _ => []
  | _, [] => []
  | fuel + 1, c :: rest =>
      match m2 (c :: rest) with
      | some (em, r) => em ++ pass2Go fuel r
      | none => c :: pass2Go fuel rest

/-- Bare-URL pass of the rewriter. -/
def pass2 (l : List Char) : List Char := pass2Go l.length l

/-- Model of transform_transcript_urls_to_youtube: the markdown pass then
the bare-URL pass. -/
def transform_transcript_urls_to_youtube (s : String) : String :=
  String.mk (pass2 (pass1 s.data))

/-! Model of the blocking chat handler (function_app.py lines 219 to 300)
and of the static-web-app handler main.  The backend is modelled by the
observable results of its two operations; call counts are recorded so
that frame conditions about backend calls can be stated.  Wall-clock
reads are modelled by a clock indexed by call order: the handler calls
time.time() seven times on the success path, at indices 0 to 6. -/

/-- Raw result of a blocking responses.create call: the dict view used by
the trace extractor and the output_text field. -/
structure RawResp where
  dict : JsonVal
  output_text : String

/-- Backend behaviour for one blocking request: the result of
conversations.create and of responses.create (which receives the
conversation value, the message and the agent name). -/
structure Backend where
  create : Except String String
  respond : JsonVal → JsonVal → String → Except String RawResp

/-- Per-phase timings recorded by the blocking handler, in milliseconds. -/
structure Timings where
  client_init : Nat
  conversation_create : Nat
  agent_response : Nat
  total : Nat
deriving Repr

/-- Trace of the blocking handler response: extractor output plus the
timings inserted afterwards. -/
structure TraceWithTimings where
  base : Trace
  timings : Timings
deriving Repr

/-- Response body of the modelled handlers. -/
inductive BodyM where
  | err (msg : String)
  | chatOk (response : String) (conversation_id : JsonVal) (trace : TraceWithTimings)
  | swaOk (response : String) (conversation_id : JsonVal)

/-- HTTP response of the modelled handlers. -/
structure HttpResponseM where
  status : Nat
  body : BodyM

/-- Outcome of a handler invocation: a response, or an exception that
escapes the handler (only reachable with a JSON body that is not an
object). -/
inductive ChatOutcome where
  | resp (r : HttpResponseM)
  | crash (e : PyErr)

/-- Handler result together with the number of backend calls issued. -/
structure ChatResult where
  outcome : ChatOutcome
  createCalls : Nat
  respondCalls : Nat

/-- AGENTS.get(reasoning_level, DEFAULT_AGENT): string labels are looked
up with the fixed default; unhashable values raise TypeError; other
hashable values miss and give the default. -/
def agentsGet (rl : JsonVal) : Except PyErr String :=
  match rl with
  | .str s => .ok ((AGENTS.lookup s).getD DEFAULT_AGENT)
  | .arr _ => .error .typeError
  | .obj _ => .error .typeError
  | _ => .ok DEFAULT_AGENT

/-- Tail of the blocking handler after session resolution: the backend
call, trace extraction, link rewriting and response assembly. -/
def chatFinish (conv message : JsonVal) (agent_name : String) (backend : Backend)
    (clock : Nat → Nat) (createCalls : Nat) : ChatResult :=
  match backend.respond conv message agent_name with
  | .error e => ⟨.resp ⟨500, .err e⟩, createCalls, 1⟩
  | .ok r =>
      let timings : Timings :=
        { client_init := clock 1 - clock 0,
          conversation_create := clock 3 - clock 2,
          agent_response := clock 5 - clock 4,
          total := clock 6 - clock 0 }
      let trace := extract_reasoning_trace r.dict
      let response_text := transform_transcript_urls_to_youtube r.output_text
      ⟨.resp ⟨200, .chatOk response_text conv ⟨trace, timings⟩⟩, createCalls, 1⟩

/-- Model of the blocking chat handler. -/
def chat (reqBody : Except Unit JsonVal) (backend : Backend) (clock : Nat → Nat) :
    ChatResult :=
  match reqBody with
  | .error _ => ⟨.resp ⟨400, .err "Invalid JSON in request body"⟩, 0, 0⟩
  | .ok d =>
      match d.get "message" .null with
      | .error e => ⟨.crash e, 0, 0⟩
      | .ok message =>
          match d.get "conversation_id" .null with
          | .error e => ⟨.crash e, 0, 0⟩
          | .ok conversation_id =>
              match d.get "reasoning_level" (.str "thorough") with
              | .error e => ⟨.crash e, 0, 0⟩
              | .ok reasoning_level =>
                  if !message.truthy then
                    ⟨.resp ⟨400, .err "Message is required"⟩, 0, 0⟩
                  else
                    match agentsGet reasoning_level with
                    | .error e => ⟨.crash e, 0, 0⟩
                    | .ok agent_name =>
                        if !conversation_id.truthy then
                          match backend.create with
                          | .error e => ⟨.resp ⟨500, .err e⟩, 1, 0⟩
                          | .ok newId =>
                              chatFinish (.str newId) message agent_name backend clock 1
                        else
                          chatFinish conversation_id message agent_name backend clock 0

/-- Agent name of the static-web-app handler. -/
def AGENT_NAME : String := "davenport-assistant"

/-- Model of the static-web-app chat handler main: same session logic,
no reasoning levels, no trace and no link rewriting. -/
def swa_main (reqBody : Except Unit JsonVal) (backend : Backend) : ChatResult :=
  match reqBody with
  | .error _ => ⟨.resp ⟨400, .err "Invalid JSON in request body"⟩, 0, 0⟩
  | .ok d =>
      match d.get "message" .null with
      | .error e => ⟨.crash e, 0, 0⟩
      | .ok message =>
          match d.get "conversation_id" .null with
          | .error e => ⟨.crash e, 0, 0⟩
          | .ok conversation_id =>
              if !message.truthy then
                ⟨.resp ⟨400, .err "Message is required"⟩, 0, 0⟩
              else
                let finish : JsonVal → Nat → ChatResult := fun conv cc =>
                  match backend.respond conv message AGENT_NAME with
                  | .error e => ⟨.resp ⟨500, .err e⟩, cc, 1⟩
                  | .ok r => ⟨.resp ⟨200, .swaOk r.output_text conv⟩, cc, 1⟩
                if !conversation_id.truthy then
                  match backend.create with
                  | .error e => ⟨.resp ⟨500, .err e⟩, 1, 0⟩
                  | .ok newId => finish (.str newId) 1
                else finish conversation_id 0

/-! Model of the streaming handler chat_stream and its event_generator
(function_app.py lines 307 to 440).  The backend stream is modelled as
the list of events it yields followed by an optional exception raised
afterwards; a failure of the responses.create call itself is the case of
an empty event list with an exception.  The generator is modelled
eagerly: the produced value is the full ordered list of server-sent
events. -/

/-- Events of the backend stream distinguished by the generator. -/
inductive BEvent where
  | textDelta (s : String)
  | mcpArgsDelta
  | mcpCompleted (arguments : Option String)
  | completed (usage : Option (Nat × Nat × Nat)) (outputText : Option String)
  | other

/-- Trace dict built by the streaming generator. -/
structure StreamTrace where
  agent : String
  query_intents : JsonVal
  sources_found : Nat
  tokens : Option (Nat × Nat × Nat)
  timings : Option Nat
deriving Repr

/-- Server-sent events emitted by the generator. -/
inductive StreamEvent where
  | session (id : JsonVal)
  | status (text : String)
  | delta (text : String)
  | done (full_text : String) (trace : StreamTrace)
  | error (text : String)

/-- Backend behaviour for one streaming request. -/
structure StreamBackend where
  create : Except String String
  respond : JsonVal → JsonVal → String → Except String (List BEvent × Option String)

/-- Generator outcome: emitted events and backend call counts. -/
structure GenResult where
  events : List StreamEvent
  createCalls : Nat
  respondCalls : Nat

/-- Query-intent update on a completed mcp call: parse the arguments
JSON, tolerate a parse failure or an unexpected shape, and replace the
intents only when truthy. -/
def mcpIntentsUpdate (arguments : Option String) (cur : JsonVal) : JsonVal :=
  match arguments with
  | none => cur
  | some s =>
      match jsonLoads s with
      | none => cur
      | some args =>
          match args.get "request" (.obj []) with
          | .error _ => cur
          | .ok req =>
              match req.get "knowledgeAgentIntents" (.arr []) with
              | .error _ => cur
              | .ok intents => if intents.truthy then intents else cur

/-- State of the generator loop over backend events. -/
structure LoopState where
  full_text : String
  first_text : Bool
  trace : StreamTrace
  clockIdx : Nat
  out : List StreamEvent

/-- One iteration of the generator loop. -/
def streamStep (clock : Nat → Nat) (t0 : Nat) (st : LoopState) : BEvent → LoopState
  | .textDelta s =>
      let pre : List StreamEvent :=
        if st.first_text then [.status "Generating answer..."] else []
      { st with
          full_text := st.full_text ++ s,
          first_text := false,
          out := st.out ++ pre ++ [.delta s] }
  | .mcpArgsDelta => st
  | .mcpCompleted args =>
      { st with trace :=
          { st.trace with query_intents := mcpIntentsUpdate args st.trace.query_intents } }
  | .completed usage _ =>
      let elapsed := clock st.clockIdx - t0
      let tr1 := { st.trace with timings := some elapsed }
      let tr2 :=
        match usage with
        | some u => { tr1 with tokens := some u }
        | none => tr1
      let finalText := transform_transcript_urls_to_youtube st.full_text
      { st with
          trace := tr2,
          clockIdx := st.clockIdx + 1,
          out := st.out ++ [.done finalText tr2] }
  | .other => st

/-- Session resolution step of the generator: reuse a truthy
conversation_id, otherwise ask the backend for a new conversation.  The
second component is the number of conversations.create calls made. -/
def resolveSession (conversation_id : JsonVal) (create : Except String String) :
    Except String (JsonVal × Nat) :=
  if conversation_id.truthy then .ok (conversation_id, 0)
  else
    match create with
    | .ok newId => .ok (.str newId, 1)
    | .error e => .error e

/-- Model of event_generator: the sync generator yielding server-sent
events, with its enclosing try/except turning any raised exception into
one final error event. -/
def event_generator (conversation_id message : JsonVal) (agent_name : String)
    (backend : StreamBackend) (clock : Nat → Nat) : GenResult :=
  let t0 := clock 0
  match resolveSession conversation_id backend.create with
  | .error e => ⟨[.error e], 1, 0⟩
  | .ok (conv, cc) =>
      let hdr : List StreamEvent := [.session conv, .status "Searching knowledge base..."]
      match backend.respond conv message agent_name with
      | .error e => ⟨hdr ++ [.error e], cc, 1⟩
      | .ok (evts, exn) =>
          let st0 : LoopState :=
            { full_text := "", first_text := true,
              trace := { agent := agent_name, query_intents := .arr [],
                         sources_found := 0, tokens := none, timings := none },
              clockIdx := 1, out := hdr }
          let stF := evts.foldl (streamStep clock t0) st0
          match exn with
          | some e => ⟨stF.out ++ [.error e], cc, 1⟩
          | none => ⟨stF.out, cc, 1⟩

/-- Result of the streaming route handler: a synchronous non-stream
response, an opened event stream, or an escaping exception. -/
inductive StreamResult where
  | nonstream (r : HttpResponseM)
  | stream (g : GenResult)
  | crash (e : PyErr)

/-- Model of the chat_stream route handler: import check, body parsing
with an empty-dict fallback, validation, agent resolution, and only then
the opening of the event stream. -/
def chat_stream (streamingAvailable : Bool) (reqBody : Except Unit JsonVal)
    (backend : StreamBackend) (clock : Nat → Nat) : StreamResult :=
  if !streamingAvailable then
    .nonstream ⟨501,
      .err "Streaming not available — azurefunctions-extensions-http-fastapi not installed"⟩
  else
    let body := match reqBody with
      | .ok d => d
      | .error _ => .obj []
    match body.get "message" .null with
    | .error e => .crash e
    | .ok message =>
        match body.get "conversation_id" .null with
        | .error e => .crash e
        | .ok conversation_id =>
            match body.get "reasoning_level" (.str "thorough") with
            | .error e => .crash e
            | .ok reasoning_level =>
                if !message.truthy then .nonstream ⟨400, .err "Message is required"⟩
                else
                  match agentsGet reasoning_level with
                  | .error e => .crash e
                  | .ok agent_name =>
                      .stream (event_generator conversation_id message agent_name backend clock)

/-! Helper predicates and observation functions on events, used to state
the streaming properties. -/

/-- Terminal events of the stream protocol. -/
def StreamEvent.isTerminal : StreamEvent → Bool
  | .done _ _ => true
  | .error _ => true
  | _ => false

/-- Session events. -/
def StreamEvent.isSession : StreamEvent → Bool
  | .session _ => true
  | _ => false

/-- Error events. -/
def StreamEvent.isError : StreamEvent → Bool
  | .error _ => true
  | _ => false

/-- Done events. -/
def StreamEvent.isDone : StreamEvent → Bool
  | .done _ _ => true
  | _ => false

/-- Delta payload of an emitted event, if any. -/
def StreamEvent.deltaText? : StreamEvent → Option String
  | .delta s => some s
  | _ => none

/-- Delta payloads of an event list, in order. -/
def deltaTexts (out : List StreamEvent) : List String :=
  out.filterMap StreamEvent.deltaText?

/-- Terminal signals of the backend stream. -/
def BEvent.isCompleted : BEvent → Bool
  | .completed _ _ => true
  | _ => false

/-- Text fragment of a backend event, if any. -/
def BEvent.fragText? : BEvent → Option String
  | .textDelta s => some s
  | _ => none

/-- Text fragments of a backend event list, in order. -/
def fragments (evts : List BEvent) : List String :=
  evts.filterMap BEvent.fragText?

/-- Concatenation of a list of strings. -/
def strConcat : List String → String
  | [] => ""
  | s :: r => s ++ strConcat r

/-- Concatenation of text fragments, the accumulated full_text. -/
def fragConcat (evts : List BEvent) : String :=
  strConcat (fragments evts)

/-! Structural lemmas about the generator loop. -/

/-- One loop step only appends to the emitted list. -/
theorem streamStep_out_mono (clock : Nat → Nat) (t0 : Nat) (st : LoopState) (b : BEvent) :
    ∃ app, (streamStep clock t0 st b).out = st.out ++ app ∧
      app.all (fun e => !e.isSession && !e.isError) = true ∧
      (b.isCompleted = false → app.all (fun e => !e.isTerminal) = true) := by
  cases b with
  | textDelta s =>
      refine ⟨(if st.first_text then [StreamEvent.status "Generating answer..."] else []) ++
        [StreamEvent.delta s], ?_, ?_, ?_⟩
      · simp [streamStep]
      · by_cases hf : st.first_text <;>
          simp [hf, StreamEvent.isSession, StreamEvent.isError]
      · intro _
        by_cases hf : st.first_text <;> simp [hf, StreamEvent.isTerminal]
  | mcpArgsDelta => exact ⟨[], by simp [streamStep], by simp, by simp⟩
  | mcpCompleted a => exact ⟨[], by simp [streamStep], by simp, by simp⟩
  | other => exact ⟨[], by simp [streamStep], by simp, by simp⟩
  | completed u ft =>
      refine ⟨[.done (transform_transcript_urls_to_youtube st.full_text)
        (match u with
         | some w =>
             { st.trace with timings := some (clock st.clockIdx - t0), tokens := some w }
         | none => { st.trace with timings := some (clock st.clockIdx - t0) })], ?_, ?_, ?_⟩
      · cases u <;> simp [streamStep]
      · simp [StreamEvent.isSession, StreamEvent.isError]
      · intro h
        simp [BEvent.isCompleted] at h

/-- The loop only appends events; the appended events contain no session
and no error event, and no terminal event when the backend list contains
no terminal signal. -/
theorem loop_out_shape (clock : Nat → Nat) (t0 : Nat) (evts : List BEvent) (st : LoopState) :
    ∃ tail, (evts.foldl (streamStep clock t0) st).out = st.out ++ tail ∧
      tail.all (fun e => !e.isSession && !e.isError) = true ∧
      (evts.all (fun b => !b.isCompleted) = true →
        tail.all (fun e => !e.isTerminal) = true) := by
  induction evts generalizing st with
  | nil => exact ⟨[], by simp, by simp, by simp⟩
  | cons b rest ih =>
      obtain ⟨app, happ, hkinds, hterm⟩ := streamStep_out_mono clock t0 st b
      obtain ⟨tail, htail, hkinds2, hterm2⟩ := ih (streamStep clock t0 st b)
      refine ⟨app ++ tail, ?_, ?_, ?_⟩
      · simp [List.foldl_cons, htail, happ]
      · simp only [List.all_append]
        rw [hkinds, hkinds2]
        rfl
      · intro hall
        simp only [List.all_cons, Bool.and_eq_true] at hall
        simp only [List.all_append]
        rw [hterm (by simpa using hall.1), hterm2 hall.2]
        rfl

/-- The loop accumulates exactly the concatenation of the fragments. -/
theorem loop_full_text (clock : Nat → Nat) (t0 : Nat) (evts : List BEvent) (st : LoopState) :
    (evts.foldl (streamStep clock t0) st).full_text = st.full_text ++ fragConcat evts := by
  induction evts generalizing st with
  | nil => simp [fragConcat, fragments, strConcat]
  | cons b rest ih =>
      rw [List.foldl_cons, ih]
      cases b with
      | textDelta s =>
          simp [streamStep, fragConcat, fragments, BEvent.fragText?, strConcat,
            String.append_assoc]
      | mcpArgsDelta => simp [streamStep, fragConcat, fragments, BEvent.fragText?]
      | mcpCompleted a => simp [streamStep, fragConcat, fragments, BEvent.fragText?]
      | other => simp [streamStep, fragConcat, fragments, BEvent.fragText?]
      | completed u ft =>
          cases u <;> simp [streamStep, fragConcat, fragments, BEvent.fragText?]

/-- The delta events emitted by the loop carry exactly the fragments, in
arrival order, never the cumulative text. -/
theorem loop_delta_texts (clock : Nat → Nat) (t0 : Nat) (evts : List BEvent) (st : LoopState) :
    deltaTexts (evts.foldl (streamStep clock t0) st).out =
      deltaTexts st.out ++ fragments evts := by
  induction evts generalizing st with
  | nil => simp [fragments]
  | cons b rest ih =>
      rw [List.foldl_cons, ih]
      cases b with
      | textDelta s =>
          by_cases hf : st.first_text <;>
            simp [streamStep, hf, fragments, BEvent.fragText?, deltaTexts,
              StreamEvent.deltaText?, List.filterMap_append]
      | mcpArgsDelta => simp [streamStep, fragments, BEvent.fragText?]
      | mcpCompleted a => simp [streamStep, fragments, BEvent.fragText?]
      | other => simp [streamStep, fragments, BEvent.fragText?]
      | completed u ft =>
          cases u <;>
            simp [streamStep, fragments, BEvent.fragText?, deltaTexts,
              StreamEvent.deltaText?, List.filterMap_append]

/-- Initial loop state of the generator for a resolved conversation. -/
def genInit (conv : JsonVal) (agent : String) : LoopState :=
  { full_text := "", first_text := true,
    trace := { agent := agent, query_intents := .arr [],
               sources_found := 0, tokens := none, timings := none },
    clockIdx := 1,
    out := [.session conv, .status "Searching knowledge base..."] }

/-- Characterization of the generator when session resolution and the
backend stream call both succeed. -/
theorem event_generator_ok (cid msg : JsonVal) (agent : String) (backend : StreamBackend)
    (clock : Nat → Nat) (conv : JsonVal) (cc : Nat) (evts : List BEvent)
    (exn : Option String)
    (hs : resolveSession cid backend.create = .ok (conv, cc))
    (hr : backend.respond conv msg agent = .ok (evts, exn)) :
    event_generator cid msg agent backend clock =
      { events := (evts.foldl (streamStep clock (clock 0)) (genInit conv agent)).out ++
          (match exn with
           | some e => [.error e]
           | none => []),
        createCalls := cc, respondCalls := 1 } := by
  unfold event_generator
  rw [hs]
  cases exn with
  | none => simp only [hr]; simp [genInit]
  | some e => simp only [hr]; simp [genInit]

/-- Characterization of the generator when session resolution succeeds
and the backend stream call itself raises. -/
theorem event_generator_respond_err (cid msg : JsonVal) (agent : String)
    (backend : StreamBackend) (clock : Nat → Nat) (conv : JsonVal) (cc : Nat) (e : String)
    (hs : resolveSession cid backend.create = .ok (conv, cc))
    (hr : backend.respond conv msg agent = .error e) :
    event_generator cid msg agent backend clock =
      ⟨[.session conv, .status "Searching knowledge base...", .error e], cc, 1⟩ := by
  unfold event_generator
  rw [hs]
  simp only [hr]
  rfl

/-  Claim theorems. -/

/-- C1, counterexample: a backend stream that yields one text fragment
and then ends without a terminal signal and without raising makes the
generator emit session, two status events and the delta, and no done or
error event at all: the event stream closes without a terminal event,
contradicting the claimed defensive completion. -/
theorem claim_C1_counterexample :
    (event_generator .null (.str "hello") "davenport-assistant"
        ⟨.ok "c1", fun _ _ _ => .ok ([.textDelta "Hi"], none)⟩ (fun i => i)).events =
      [.session (.str "c1"), .status "Searching knowledge base...",
       .status "Generating answer...", .delta "Hi"] ∧
    (event_generator .null (.str "hello") "davenport-assistant"
        ⟨.ok "c1", fun _ _ _ => .ok ([.textDelta "Hi"], none)⟩ (fun i => i)).events.all
      (fun e => !e.isTerminal) = true :=
  ⟨rfl, rfl⟩

/-- C1 (amended): if the backend stream ends without ever producing a
terminal signal and without raising, the generator emits no terminal
event at all, whatever text was accumulated: the defensive completion
described by the specification does not exist in the code, and such a
stream closes with only session, status and delta events. -/
theorem claim_C1 (conversation_id message : JsonVal) (agent : String)
    (backend : StreamBackend) (clock : Nat → Nat) (conv : JsonVal) (cc : Nat)
    (evts : List BEvent)
    (hs : resolveSession conversation_id backend.create = .ok (conv, cc))
    (hr : backend.respond conv message agent = .ok (evts, none))
    (hnt : evts.all (fun b => !b.isCompleted) = true) :
    (event_generator conversation_id message agent backend clock).events.all
      (fun e => !e.isTerminal) = true := by
  rw [event_generator_ok conversation_id message agent backend clock conv cc evts none hs hr]
  obtain ⟨tail, ht, _, htm⟩ :=
    loop_out_shape clock (clock 0) evts (genInit conv agent)
  have h2 := htm hnt
  show ((evts.foldl (streamStep clock (clock 0)) (genInit conv agent)).out ++ []).all
      (fun e => !e.isTerminal) = true
  rw [List.append_nil, ht, List.all_append, h2]
  rfl

/-- C1, witness: the amended statement evaluated on the concrete
one-fragment stream with no terminal signal. -/
theorem claim_C1_witness :
    (event_generator .null (.str "hello") "davenport-assistant"
        ⟨.ok "c1", fun _ _ _ => .ok ([.textDelta "Hi"], none)⟩ (fun i => i)).events.all
      (fun e => !e.isTerminal) = true :=
  claim_C1 .null (.str "hello") "davenport-assistant"
    ⟨.ok "c1", fun _ _ _ => .ok ([.textDelta "Hi"], none)⟩ (fun i => i)
    (.str "c1") 1 [.textDelta "Hi"] (by rfl) (by rfl) (by rfl)

/-- C2, counterexample: a backend that raises mid-stream after one delta
produces five events, session, status Searching, status Generating, one
delta and one error, not the four events session, status, delta, error
stated by the claim: the transition status event before the first delta
is also emitted. -/
theorem claim_C2_counterexample :
    (event_generator .null (.str "q") "davenport-assistant"
        ⟨.ok "c1", fun _ _ _ => .ok ([.textDelta "x"], some "boom")⟩ (fun i => i)).events =
      [.session (.str "c1"), .status "Searching knowledge base...",
       .status "Generating answer...", .delta "x", .error "boom"] ∧
    ¬ ∃ a b c d,
      (event_generator .null (.str "q") "davenport-assistant"
          ⟨.ok "c1", fun _ _ _ => .ok ([.textDelta "x"], some "boom")⟩ (fun i => i)).events =
        [.session a, .status b, .delta c, .error d] := by
  refine ⟨rfl, ?_⟩
  rintro ⟨a, b, c, d, h⟩
  rw [show (event_generator .null (.str "q") "davenport-assistant"
        ⟨.ok "c1", fun _ _ _ => .ok ([.textDelta "x"], some "boom")⟩ (fun i => i)).events =
      [.session (.str "c1"), .status "Searching knowledge base...",
       .status "Generating answer...", .delta "x", .error "boom"] from rfl] at h
  simp at h

/-- C2 (amended): once the stream is opened and session resolution
succeeds, the first event is the single session event; when the backend
stream raises only at its end or signals completion exactly once as its
final event, the output ends with one terminal event preceded only by
non-terminal events, so every delta precedes the terminal event and
nothing follows it; and the raise-after-one-delta scenario produces
session, status Searching, status Generating, one delta, then one error
and nothing further. -/
theorem claim_C2 :
    (∀ cid msg agent backend clock conv cc evts exn,
       resolveSession cid backend.create = .ok (conv, cc) →
       backend.respond conv msg agent = .ok (evts, exn) →
       (event_generator cid msg agent backend clock).events.head? =
           some (.session conv) ∧
       (event_generator cid msg agent backend clock).events.countP
           (fun e => e.isSession) = 1) ∧
    (∀ cid msg agent backend clock conv cc evts e,
       resolveSession cid backend.create = .ok (conv, cc) →
       backend.respond conv msg agent = .ok (evts, some e) →
       evts.all (fun b => !b.isCompleted) = true →
       ∃ init, (event_generator cid msg agent backend clock).events =
           init ++ [.error e] ∧
         init.all (fun ev => !ev.isTerminal) = true) ∧
    (∀ cid msg agent backend clock conv cc pre u ft,
       resolveSession cid backend.create = .ok (conv, cc) →
       backend.respond conv msg agent = .ok (pre ++ [.completed u ft], none) →
       pre.all (fun b => !b.isCompleted) = true →
       ∃ init ftext tr, (event_generator cid msg agent backend clock).events =
           init ++ [.done ftext tr] ∧
         init.all (fun ev => !ev.isTerminal) = true) ∧
    (event_generator .null (.str "q") "davenport-assistant"
        ⟨.ok "c1", fun _ _ _ => .ok ([.textDelta "x"], some "boom")⟩ (fun i => i)).events =
      [.session (.str "c1"), .status "Searching knowledge base...",
       .status "Generating answer...", .delta "x", .error "boom"] := by
  refine ⟨?_, ?_, ?_, rfl⟩
  · intro cid msg agent backend clock conv cc evts exn hs hr
    rw [event_generator_ok cid msg agent backend clock conv cc evts exn hs hr]
    obtain ⟨tail, ht, hk, _⟩ := loop_out_shape clock (clock 0) evts (genInit conv agent)
    have hsess : tail.countP (fun e => e.isSession) = 0 := by
      rw [List.countP_eq_zero]
      intro a ha
      have := List.all_eq_true.mp hk a ha
      simp only [Bool.and_eq_true, Bool.not_eq_true'] at this
      simp [this.1]
    constructor
    · show ((evts.foldl (streamStep clock (clock 0)) (genInit conv agent)).out ++ _).head? =
        some (.session conv)
      rw [ht]
      rfl
    · show ((evts.foldl (streamStep clock (clock 0)) (genInit conv agent)).out ++ _).countP
          (fun e => e.isSession) = 1
      rw [ht, List.countP_append, List.countP_append, hsess]
      cases exn <;> rfl
  · intro cid msg agent backend clock conv cc evts e hs hr hnt
    rw [event_generator_ok cid msg agent backend clock conv cc evts (some e) hs hr]
    obtain ⟨tail, ht, _, htm⟩ := loop_out_shape clock (clock 0) evts (genInit conv agent)
    refine ⟨(genInit conv agent).out ++ tail, ?_, ?_⟩
    · show (evts.foldl (streamStep clock (clock 0)) (genInit conv agent)).out ++ [.error e] = _
      rw [ht, List.append_assoc]
    · rw [List.all_append, htm hnt]
      rfl
  · intro cid msg agent backend clock conv cc pre u ft hs hr hnt
    rw [event_generator_ok cid msg agent backend clock conv cc (pre ++ [.completed u ft])
      none hs hr]
    obtain ⟨tail, ht, _, htm⟩ := loop_out_shape clock (clock 0) pre (genInit conv agent)
    refine ⟨(genInit conv agent).out ++ tail,
      transform_transcript_urls_to_youtube
        (pre.foldl (streamStep clock (clock 0)) (genInit conv agent)).full_text, ?_, ?_, ?_⟩
    · exact
        (match u with
         | some w =>
             { (pre.foldl (streamStep clock (clock 0)) (genInit conv agent)).trace with
                 timings := some (clock (pre.foldl (streamStep clock (clock 0))
                   (genInit conv agent)).clockIdx - clock 0),
                 tokens := some w }
         | none =>
             { (pre.foldl (streamStep clock (clock 0)) (genInit conv agent)).trace with
                 timings := some (clock (pre.foldl (streamStep clock (clock 0))
                   (genInit conv agent)).clockIdx - clock 0) })
    · show ((pre ++ [BEvent.completed u ft]).foldl (streamStep clock (clock 0))
          (genInit conv agent)).out ++ [] = _
      rw [List.append_nil, List.foldl_append]
      cases u <;>
        · simp only [List.foldl_cons, List.foldl_nil, streamStep]
          rw [ht, List.append_assoc]
    · rw [List.all_append, htm hnt]
      rfl

/-- C2, witness: the amended statement applied to the concrete backend
raising after one delta: the stream ends with the single error event and
only non-terminal events precede it. -/
theorem claim_C2_witness :
    ∃ init,
      (event_generator .null (.str "q") "davenport-assistant"
          ⟨.ok "c1", fun _ _ _ => .ok ([.textDelta "x"], some "boom")⟩ (fun i => i)).events =
        init ++ [.error "boom"] ∧
      init.all (fun ev => !ev.isTerminal) = true :=
  claim_C2.2.1 .null (.str "q") "davenport-assistant"
    ⟨.ok "c1", fun _ _ _ => .ok ([.textDelta "x"], some "boom")⟩ (fun i => i)
    (.str "c1") 1 [.textDelta "x"] "boom" (by rfl) (by rfl) (by rfl)

/-- C3, counterexample: a backend that delivers no fragments and a
terminal signal carrying a full-text field Hello makes the generator emit
a done event whose full_text is the empty string: the code never falls
back to the full-text field of the terminal signal. -/
theorem claim_C3_counterexample :
    (event_generator .null (.str "q") "davenport-assistant"
        ⟨.ok "c1", fun _ _ _ => .ok ([.completed none (some "Hello")], none)⟩
        (fun _ => 0)).events =
      [.session (.str "c1"), .status "Searching knowledge base...",
       .done "" { agent := "davenport-assistant", query_intents := .arr [],
                  sources_found := 0, tokens := none, timings := some 0 }] ∧
    ∀ tr, StreamEvent.done "Hello" tr ∉
      (event_generator .null (.str "q") "davenport-assistant"
          ⟨.ok "c1", fun _ _ _ => .ok ([.completed none (some "Hello")], none)⟩
          (fun _ => 0)).events := by
  refine ⟨rfl, ?_⟩
  intro tr h
  rw [show (event_generator .null (.str "q") "davenport-assistant"
        ⟨.ok "c1", fun _ _ _ => .ok ([.completed none (some "Hello")], none)⟩
        (fun _ => 0)).events =
      [.session (.str "c1"), .status "Searching knowledge base...",
       .done "" { agent := "davenport-assistant", query_intents := .arr [],
                  sources_found := 0, tokens := none, timings := some 0 }] from rfl] at h
  simp at h

/-- C3 (amended): each delta event carries exactly the newly received
fragment, so the delta payloads equal the fragment list in arrival order
and never the cumulative text; on a terminal signal the done event
carries the citation-rewritten concatenation of the fragments received
before it, which is the rewritten empty string when no fragment was ever
received: the full-text field of the terminal signal itself is ignored;
and the Foo Bar Baz scenario produces session, the two status events,
three delta events with exactly those fragments and a final done event
with full_text FooBarBaz. -/
theorem claim_C3 :
    (∀ cid msg agent backend clock conv cc evts exn,
       resolveSession cid backend.create = .ok (conv, cc) →
       backend.respond conv msg agent = .ok (evts, exn) →
       deltaTexts (event_generator cid msg agent backend clock).events =
         fragments evts) ∧
    (∀ cid msg agent backend clock conv cc pre u ft,
       resolveSession cid backend.create = .ok (conv, cc) →
       backend.respond conv msg agent = .ok (pre ++ [.completed u ft], none) →
       ∃ init tr, (event_generator cid msg agent backend clock).events =
           init ++ [.done (transform_transcript_urls_to_youtube (fragConcat pre)) tr]) ∧
    (event_generator .null (.str "q") "davenport-assistant"
        ⟨.ok "c1", fun _ _ _ =>
            .ok ([.textDelta "Foo", .textDelta "Bar", .textDelta "Baz",
                  .completed none none], none)⟩
        (fun _ => 0)).events =
      [.session (.str "c1"), .status "Searching knowledge base...",
       .status "Generating answer...", .delta "Foo", .delta "Bar", .delta "Baz",
       .done "FooBarBaz" { agent := "davenport-assistant", query_intents := .arr [],
                           sources_found := 0, tokens := none, timings := some 0 }] := by
  refine ⟨?_, ?_, rfl⟩
  · intro cid msg agent backend clock conv cc evts exn hs hr
    rw [event_generator_ok cid msg agent backend clock conv cc evts exn hs hr]
    show deltaTexts ((evts.foldl (streamStep clock (clock 0)) (genInit conv agent)).out ++ _) =
      fragments evts
    rw [deltaTexts, List.filterMap_append]
    have hd := loop_delta_texts clock (clock 0) evts (genInit conv agent)
    rw [deltaTexts] at hd
    rw [hd]
    have hnil : deltaTexts (genInit conv agent).out = [] := rfl
    rw [hnil]
    cases exn <;> simp [StreamEvent.deltaText?]
  · intro cid msg agent backend clock conv cc pre u ft hs hr
    rw [event_generator_ok cid msg agent backend clock conv cc (pre ++ [.completed u ft])
      none hs hr]
    refine ⟨(pre.foldl (streamStep clock (clock 0)) (genInit conv agent)).out, ?_, ?_⟩
    · exact
        (match u with
         | some w =>
             { (pre.foldl (streamStep clock (clock 0)) (genInit conv agent)).trace with
                 timings := some (clock (pre.foldl (streamStep clock (clock 0))
                   (genInit conv agent)).clockIdx - clock 0),
                 tokens := some w }
         | none =>
             { (pre.foldl (streamStep clock (clock 0)) (genInit conv agent)).trace with
                 timings := some (clock (pre.foldl (streamStep clock (clock 0))
                   (genInit conv agent)).clockIdx - clock 0) })
    · show ((pre ++ [BEvent.completed u ft]).foldl (streamStep clock (clock 0))
          (genInit conv agent)).out ++ [] = _
      rw [List.append_nil, List.foldl_append]
      have hft := loop_full_text clock (clock 0) pre (genInit conv agent)
      have hinit : (genInit conv agent).full_text = "" := rfl
      rw [hinit] at hft
      cases u <;>
        · simp only [List.foldl_cons, List.foldl_nil, streamStep]
          rw [hft]
          have : ("" : String) ++ fragConcat pre = fragConcat pre := by
            simp
          rw [this]

/-- C3, witness: the amended second conjunct applied to the concrete
no-fragments backend whose terminal signal carries the full-text field
Hello: the done event carries the rewrite of the empty accumulation. -/
theorem claim_C3_witness :
    ∃ init tr,
      (event_generator .null (.str "q") "davenport-assistant"
          ⟨.ok "c1", fun _ _ _ => .ok ([.completed none (some "Hello")], none)⟩
          (fun _ => 0)).events =
        init ++ [.done (transform_transcript_urls_to_youtube (fragConcat [])) tr] :=
  claim_C3.2.1 .null (.str "q") "davenport-assistant"
    ⟨.ok "c1", fun _ _ _ => .ok ([.completed none (some "Hello")], none)⟩
    (fun _ => 0) (.str "c1") 1 [] none (some "Hello") (by rfl) (by rfl)

/-- C6, counterexample: on the failure path (the backend call raises) the
blocking handler returns a bare error payload with status 500 and no
trace at all, so no timings are recorded into the returned payload,
contradicting the regardless-of-path part of the claim. -/
theorem claim_C6_counterexample :
    chat (.ok (.obj [("message", .str "hi"), ("conversation_id", .str "c7")]))
        ⟨.ok "new", fun _ _ _ => .error "boom"⟩ (fun i => i) =
      ⟨.resp ⟨500, .err "boom"⟩, 0, 1⟩ ∧
    ¬ ∃ st rt conv tr,
      (chat (.ok (.obj [("message", .str "hi"), ("conversation_id", .str "c7")]))
          ⟨.ok "new", fun _ _ _ => .error "boom"⟩ (fun i => i)).outcome =
        .resp ⟨st, .chatOk rt conv tr⟩ := by
  refine ⟨rfl, ?_⟩
  rintro ⟨st, rt, conv, tr, h⟩
  rw [show (chat (.ok (.obj [("message", .str "hi"), ("conversation_id", .str "c7")]))
      ⟨.ok "new", fun _ _ _ => .error "boom"⟩ (fun i => i)).outcome =
      .resp ⟨500, .err "boom"⟩ from rfl] at h
  simp at h

/-- C6 (amended): per-phase wall-clock durations are recorded into the
timings of the returned trace on the success path (for both session
paths), with client_init, conversation_create, agent_response and total
taken from the seven wall-clock reads; on the failure path the handler
returns only an error payload carrying no trace and hence no timings. -/
theorem claim_C6 :
    (∀ d backend clock m cid rl agent r,
       JsonVal.get d "message" .null = .ok m → m.truthy = true →
       JsonVal.get d "conversation_id" .null = .ok cid → cid.truthy = true →
       JsonVal.get d "reasoning_level" (.str "thorough") = .ok rl →
       agentsGet rl = .ok agent →
       backend.respond cid m agent = .ok r →
       chat (.ok d) backend clock =
         ⟨.resp ⟨200, .chatOk (transform_transcript_urls_to_youtube r.output_text) cid
             ⟨extract_reasoning_trace r.dict,
              { client_init := clock 1 - clock 0,
                conversation_create := clock 3 - clock 2,
                agent_response := clock 5 - clock 4,
                total := clock 6 - clock 0 }⟩⟩, 0, 1⟩) ∧
    (∀ d backend clock m cid rl agent newId r,
       JsonVal.get d "message" .null = .ok m → m.truthy = true →
       JsonVal.get d "conversation_id" .null = .ok cid → cid.truthy = false →
       JsonVal.get d "reasoning_level" (.str "thorough") = .ok rl →
       agentsGet rl = .ok agent →
       backend.create = .ok newId →
       backend.respond (.str newId) m agent = .ok r →
       chat (.ok d) backend clock =
         ⟨.resp ⟨200, .chatOk (transform_transcript_urls_to_youtube r.output_text)
             (.str newId)
             ⟨extract_reasoning_trace r.dict,
              { client_init := clock 1 - clock 0,
                conversation_create := clock 3 - clock 2,
                agent_response := clock 5 - clock 4,
                total := clock 6 - clock 0 }⟩⟩, 1, 1⟩) ∧
    (∀ d backend clock m cid rl agent e,
       JsonVal.get d "message" .null = .ok m → m.truthy = true →
       JsonVal.get d "conversation_id" .null = .ok cid → cid.truthy = true →
       JsonVal.get d "reasoning_level" (.str "thorough") = .ok rl →
       agentsGet rl = .ok agent →
       backend.respond cid m agent = .error e →
       chat (.ok d) backend clock = ⟨.resp ⟨500, .err e⟩, 0, 1⟩) := by
  refine ⟨?_, ?_, ?_⟩
  · intro d backend clock m cid rl agent r hm hmt hcid hcidt hrl hag hresp
    simp [chat, hm, hmt, hcid, hcidt, hrl, hag, chatFinish, hresp]
  · intro d backend clock m cid rl agent newId r hm hmt hcid hcidt hrl hag hcr hresp
    simp [chat, hm, hmt, hcid, hcidt, hrl, hag, chatFinish, hcr, hresp]
  · intro d backend clock m cid rl agent e hm hmt hcid hcidt hrl hag hresp
    simp [chat, hm, hmt, hcid, hcidt, hrl, hag, chatFinish, hresp]

/-- C6, witness: the amended success-path statement applied to a concrete
request with a supplied conversation id and a succeeding backend. -/
theorem claim_C6_witness :
    chat (.ok (.obj [("message", .str "hi"), ("conversation_id", .str "c7")]))
        ⟨.ok "new", fun _ _ _ => .ok ⟨.obj [], "ok"⟩⟩ (fun i => 10 * i) =
      ⟨.resp ⟨200, .chatOk (transform_transcript_urls_to_youtube "ok") (.str "c7")
          ⟨extract_reasoning_trace (.obj []),
           { client_init := 10 * 1 - 10 * 0,
             conversation_create := 10 * 3 - 10 * 2,
             agent_response := 10 * 5 - 10 * 4,
             total := 10 * 6 - 10 * 0 }⟩⟩, 0, 1⟩ :=
  claim_C6.1 (.obj [("message", .str "hi"), ("conversation_id", .str "c7")])
    ⟨.ok "new", fun _ _ _ => .ok ⟨.obj [], "ok"⟩⟩ (fun i => 10 * i)
    (.str "hi") (.str "c7") (.str "thorough") "davenport-assistant" ⟨.obj [], "ok"⟩
    (by rfl) (by rfl) (by rfl) (by rfl) (by rfl) (by rfl) (by rfl)

/-- C7: the trace extractor never raises: in both incarnations every
exception of the try body is caught and the partially filled trace with
its zero and empty defaults is returned instead; a response dictionary
missing all optional fields yields the default trace with zero sources,
empty intents and empty token counters; and malformed embedded JSON in
the mcp-call arguments degrades to the same defaults. -/
theorem claim_C7 :
    (∀ d t, extractTry d = .error t → extract_reasoning_trace d = t) ∧
    (∀ d t, extractTryA d = .error t → extract_reasoning_trace_agentic d = t) ∧
    extract_reasoning_trace (.obj []) =
      { agent := none, query_intents := .arr [], sources_found := 0, tokens := none } ∧
    extract_reasoning_trace_agentic (.obj []) =
      { agent := none, query_intents := .arr [], sources_found := 0, tokens := none } ∧
    extract_reasoning_trace (.obj [("output", .arr [.obj [("type", .str "mcp_call"),
        ("arguments", .str "not json")]])]) =
      { agent := none, query_intents := .arr [], sources_found := 0, tokens := none } ∧
    extract_reasoning_trace_agentic (.obj [("output", .arr [.obj [("type", .str "mcp_call"),
        ("arguments", .str "not json")]])]) =
      { agent := none, query_intents := .arr [], sources_found := 0, tokens := none } := by
  refine ⟨?_, ?_, rfl, rfl, rfl, rfl⟩
  · intro d t h
    unfold extract_reasoning_trace
    rw [h]
  · intro d t h
    unfold extract_reasoning_trace_agentic
    rw [h]

/-- C7, witness: the catch clause evaluated on a response that is not a
dictionary at all, where the try body raises a TypeError on the first
membership test and the untouched default trace is returned. -/
theorem claim_C7_witness :
    extract_reasoning_trace (.num 7) = Trace.init :=
  claim_C7.1 (.num 7) Trace.init (by rfl)

/-- C8: a request whose message is empty or missing is rejected before
any backend interaction: the blocking handler returns 400 with the error
payload and zero backend calls; the streaming handler returns a
synchronous non-stream 400 response, for every backend behaviour, so no
event stream is opened and no backend call is made; an unparsable body
behaves the same in streaming mode (it falls back to an empty dict whose
message is missing); and when the streaming extension is unavailable the
handler also answers synchronously without opening a stream. -/
theorem claim_C8 :
    (∀ d backend clock m cid rl,
       JsonVal.get d "message" .null = .ok m →
       JsonVal.get d "conversation_id" .null = .ok cid →
       JsonVal.get d "reasoning_level" (.str "thorough") = .ok rl →
       m.truthy = false →
       chat (.ok d) backend clock = ⟨.resp ⟨400, .err "Message is required"⟩, 0, 0⟩) ∧
    (∀ d backend clock m cid rl,
       JsonVal.get d "message" .null = .ok m →
       JsonVal.get d "conversation_id" .null = .ok cid →
       JsonVal.get d "reasoning_level" (.str "thorough") = .ok rl →
       m.truthy = false →
       chat_stream true (.ok d) backend clock =
         .nonstream ⟨400, .err "Message is required"⟩) ∧
    (∀ backend clock,
       chat_stream true (.error ()) backend clock =
         .nonstream ⟨400, .err "Message is required"⟩) ∧
    (∀ reqBody backend clock,
       chat_stream false reqBody backend clock =
         .nonstream ⟨501,
           .err "Streaming not available — azurefunctions-extensions-http-fastapi not installed"⟩) := by
  refine ⟨?_, ?_, ?_, ?_⟩
  · intro d backend clock m cid rl hm hcid hrl hmt
    simp [chat, hm, hcid, hrl, hmt]
  · intro d backend clock m cid rl hm hcid hrl hmt
    simp [chat_stream, hm, hcid, hrl, hmt]
  · intro backend clock
    rfl
  · intro reqBody backend clock
    rfl

/-- C8, witness: the blocking and streaming rejection applied to the
concrete request with no message field. -/
theorem claim_C8_witness :
    chat (.ok (.obj [])) ⟨.ok "c", fun _ _ _ => .ok ⟨.obj [], "t"⟩⟩ (fun i => i) =
      ⟨.resp ⟨400, .err "Message is required"⟩, 0, 0⟩ :=
  claim_C8.1 (.obj []) ⟨.ok "c", fun _ _ _ => .ok ⟨.obj [], "t"⟩⟩ (fun i => i)
    .null .null (.str "thorough") (by rfl) (by rfl) (by rfl) (by rfl)

/-- C9: session reuse: a truthy caller-supplied conversation_id is passed
through unchanged and conversations.create is never called, on both the
success and the failure path of the blocking handler and in the
streaming generator (whose session event carries the supplied id);
without a conversation_id exactly one conversations.create call is made
and the freshly minted id is what is returned.  Calling the orchestrator
twice with the same id therefore never triggers a new-session call,
while omitting it always does. -/
theorem claim_C9 :
    (∀ d backend clock m cid rl agent r,
       JsonVal.get d "message" .null = .ok m → m.truthy = true →
       JsonVal.get d "conversation_id" .null = .ok cid → cid.truthy = true →
       JsonVal.get d "reasoning_level" (.str "thorough") = .ok rl →
       agentsGet rl = .ok agent →
       backend.respond cid m agent = .ok r →
       chat (.ok d) backend clock =
         ⟨.resp ⟨200, .chatOk (transform_transcript_urls_to_youtube r.output_text) cid
             ⟨extract_reasoning_trace r.dict,
              { client_init := clock 1 - clock 0,
                conversation_create := clock 3 - clock 2,
                agent_response := clock 5 - clock 4,
                total := clock 6 - clock 0 }⟩⟩, 0, 1⟩) ∧
    (∀ d backend clock m cid rl agent e,
       JsonVal.get d "message" .null = .ok m → m.truthy = true →
       JsonVal.get d "conversation_id" .null = .ok cid → cid.truthy = true →
       JsonVal.get d "reasoning_level" (.str "thorough") = .ok rl →
       agentsGet rl = .ok agent →
       backend.respond cid m agent = .error e →
       chat (.ok d) backend clock = ⟨.resp ⟨500, .err e⟩, 0, 1⟩) ∧
    (∀ d backend clock m cid rl agent newId r,
       JsonVal.get d "message" .null = .ok m → m.truthy = true →
       JsonVal.get d "conversation_id" .null = .ok cid → cid.truthy = false →
       JsonVal.get d "reasoning_level" (.str "thorough") = .ok rl →
       agentsGet rl = .ok agent →
       backend.create = .ok newId →
       backend.respond (.str newId) m agent = .ok r →
       chat (.ok d) backend clock =
         ⟨.resp ⟨200, .chatOk (transform_transcript_urls_to_youtube r.output_text)
             (.str newId)
             ⟨extract_reasoning_trace r.dict,
              { client_init := clock 1 - clock 0,
                conversation_create := clock 3 - clock 2,
                agent_response := clock 5 - clock 4,
                total := clock 6 - clock 0 }⟩⟩, 1, 1⟩) ∧
    (∀ (cid msg : JsonVal) (agent : String) (backend : StreamBackend) (clock : Nat → Nat),
       cid.truthy = true →
       (event_generator cid msg agent backend clock).createCalls = 0 ∧
       (event_generator cid msg agent backend clock).events.head? =
         some (.session cid)) ∧
    (∀ (cid msg : JsonVal) (agent : String) (backend : StreamBackend) (clock : Nat → Nat)
       (newId : String),
       cid.truthy = false → backend.create = .ok newId →
       (event_generator cid msg agent backend clock).createCalls = 1 ∧
       (event_generator cid msg agent backend clock).events.head? =
         some (.session (.str newId))) := by
  refine ⟨?_, ?_, ?_, ?_, ?_⟩
  · intro d backend clock m cid rl agent r hm hmt hcid hcidt hrl hag hresp
    simp [chat, hm, hmt, hcid, hcidt, hrl, hag, chatFinish, hresp]
  · intro d backend clock m cid rl agent e hm hmt hcid hcidt hrl hag hresp
    simp [chat, hm, hmt, hcid, hcidt, hrl, hag, chatFinish, hresp]
  · intro d backend clock m cid rl agent newId r hm hmt hcid hcidt hrl hag hcr hresp
    simp [chat, hm, hmt, hcid, hcidt, hrl, hag, chatFinish, hcr, hresp]
  · intro cid msg agent backend clock hcidt
    have hs : resolveSession cid backend.create = .ok (cid, 0) := by
      simp [resolveSession, hcidt]
    cases hr : backend.respond cid msg agent with
    | error e =>
        rw [event_generator_respond_err cid msg agent backend clock cid 0 e hs hr]
        exact ⟨rfl, rfl⟩
    | ok p =>
        obtain ⟨evts, exn⟩ := p
        obtain ⟨tail, ht, _, _⟩ :=
          loop_out_shape clock (clock 0) evts (genInit cid agent)
        cases exn with
        | none =>
            rw [event_generator_ok cid msg agent backend clock cid 0 evts none hs hr]
            refine ⟨rfl, ?_⟩
            show ((evts.foldl (streamStep clock (clock 0))
                (genInit cid agent)).out ++ []).head? = some (.session cid)
            rw [ht]
            rfl
        | some e =>
            rw [event_generator_ok cid msg agent backend clock cid 0 evts (some e) hs hr]
            refine ⟨rfl, ?_⟩
            show ((evts.foldl (streamStep clock (clock 0))
                (genInit cid agent)).out ++ [StreamEvent.error e]).head? =
              some (.session cid)
            rw [ht]
            rfl
  · intro cid msg agent backend clock newId hcidt hcr
    have hs : resolveSession cid backend.create = .ok (.str newId, 1) := by
      simp [resolveSession, hcidt, hcr]
    cases hr : backend.respond (.str newId) msg agent with
    | error e =>
        rw [event_generator_respond_err cid msg agent backend clock (.str newId) 1 e hs hr]
        exact ⟨rfl, rfl⟩
    | ok p =>
        obtain ⟨evts, exn⟩ := p
        obtain ⟨tail, ht, _, _⟩ :=
          loop_out_shape clock (clock 0) evts (genInit (.str newId) agent)
        cases exn with
        | none =>
            rw [event_generator_ok cid msg agent backend clock (.str newId) 1 evts none
              hs hr]
            refine ⟨rfl, ?_⟩
            show ((evts.foldl (streamStep clock (clock 0))
                (genInit (.str newId) agent)).out ++ []).head? =
              some (.session (.str newId))
            rw [ht]
            rfl
        | some e =>
            rw [event_generator_ok cid msg agent backend clock (.str newId) 1 evts (some e)
              hs hr]
            refine ⟨rfl, ?_⟩
            show ((evts.foldl (streamStep clock (clock 0))
                (genInit (.str newId) agent)).out ++ [StreamEvent.error e]).head? =
              some (.session (.str newId))
            rw [ht]
            rfl

/-- C9, witness: session reuse evaluated on a concrete request carrying a
conversation id; the backend create result is irrelevant and unused. -/
theorem claim_C9_witness :
    (event_generator (.str "conv-1") (.str "q") "davenport-assistant"
        ⟨.error "create must not be called", fun _ _ _ => .ok ([], none)⟩
        (fun i => i)).createCalls = 0 ∧
    (event_generator (.str "conv-1") (.str "q") "davenport-assistant"
        ⟨.error "create must not be called", fun _ _ _ => .ok ([], none)⟩
        (fun i => i)).events.head? = some (.session (.str "conv-1")) :=
  claim_C9.2.2.2.1 (.str "conv-1") (.str "q") "davenport-assistant"
    ⟨.error "create must not be called", fun _ _ _ => .ok ([], none)⟩
    (fun i => i) (by rfl)

/-- C10: a conversation_id supplied as the empty string is falsy, so all
three handlers treat it exactly as if it were absent: one
conversations.create backend call is made and the freshly minted id, not
the empty string, is what the response or the session event carries. -/
theorem claim_C10 :
    (∀ d backend clock m rl agent newId r,
       JsonVal.get d "message" .null = .ok m → m.truthy = true →
       JsonVal.get d "conversation_id" .null = .ok (.str "") →
       JsonVal.get d "reasoning_level" (.str "thorough") = .ok rl →
       agentsGet rl = .ok agent →
       backend.create = .ok newId →
       backend.respond (.str newId) m agent = .ok r →
       chat (.ok d) backend clock =
         ⟨.resp ⟨200, .chatOk (transform_transcript_urls_to_youtube r.output_text)
             (.str newId)
             ⟨extract_reasoning_trace r.dict,
              { client_init := clock 1 - clock 0,
                conversation_create := clock 3 - clock 2,
                agent_response := clock 5 - clock 4,
                total := clock 6 - clock 0 }⟩⟩, 1, 1⟩) ∧
    (∀ (msg : JsonVal) (agent : String) (backend : StreamBackend) (clock : Nat → Nat)
       (newId : String),
       backend.create = .ok newId →
       (event_generator (.str "") msg agent backend clock).createCalls = 1 ∧
       (event_generator (.str "") msg agent backend clock).events.head? =
         some (.session (.str newId))) ∧
    (∀ d backend m newId r,
       JsonVal.get d "message" .null = .ok m → m.truthy = true →
       JsonVal.get d "conversation_id" .null = .ok (.str "") →
       backend.create = .ok newId →
       backend.respond (.str newId) m AGENT_NAME = .ok r →
       swa_main (.ok d) backend =
         ⟨.resp ⟨200, .swaOk r.output_text (.str newId)⟩, 1, 1⟩) := by
  refine ⟨?_, ?_, ?_⟩
  · intro d backend clock m rl agent newId r hm hmt hcid hrl hag hcr hresp
    have he : (JsonVal.str "").truthy = false := rfl
    simp [chat, hm, hmt, hcid, hrl, hag, chatFinish, hcr, hresp, he]
  · intro msg agent backend clock newId hcr
    have hs : resolveSession (.str "") backend.create = .ok (.str newId, 1) := by
      simp [resolveSession, JsonVal.truthy, hcr]
    cases hr : backend.respond (.str newId) msg agent with
    | error e =>
        rw [event_generator_respond_err (.str "") msg agent backend clock
          (.str newId) 1 e hs hr]
        exact ⟨rfl, rfl⟩
    | ok p =>
        obtain ⟨evts, exn⟩ := p
        obtain ⟨tail, ht, _, _⟩ :=
          loop_out_shape clock (clock 0) evts (genInit (.str newId) agent)
        cases exn with
        | none =>
            rw [event_generator_ok (.str "") msg agent backend clock (.str newId) 1 evts
              none hs hr]
            refine ⟨rfl, ?_⟩
            show ((evts.foldl (streamStep clock (clock 0))
                (genInit (.str newId) agent)).out ++ []).head? =
              some (.session (.str newId))
            rw [ht]
            rfl
        | some e =>
            rw [event_generator_ok (.str "") msg agent backend clock (.str newId) 1 evts
              (some e) hs hr]
            refine ⟨rfl, ?_⟩
            show ((evts.foldl (streamStep clock (clock 0))
                (genInit (.str newId) agent)).out ++ [StreamEvent.error e]).head? =
              some (.session (.str newId))
            rw [ht]
            rfl
  · intro d backend m newId r hm hmt hcid hcr hresp
    have he : (JsonVal.str "").truthy = false := rfl
    simp [swa_main, hm, hmt, hcid, hcr, hresp, he]

/-- C10, witness: the empty-string conversation id evaluated on the
concrete streaming backend: one create call, and the session event
carries the minted id. -/
theorem claim_C10_witness :
    (event_generator (.str "") (.str "q") "davenport-assistant"
        ⟨.ok "minted-7", fun _ _ _ => .ok ([], none)⟩ (fun i => i)).createCalls = 1 ∧
    (event_generator (.str "") (.str "q") "davenport-assistant"
        ⟨.ok "minted-7", fun _ _ _ => .ok ([], none)⟩ (fun i => i)).events.head? =
      some (.session (.str "minted-7")) :=
  claim_C10.2.1 (.str "q") "davenport-assistant"
    ⟨.ok "minted-7", fun _ _ _ => .ok ([], none)⟩ (fun i => i) "minted-7" (by rfl)

/-! List scanning helper lemmas for the rewriter proofs. -/

/-- takeWhile over an append whose first part satisfies the predicate. -/
theorem takeWhile_append_all {α : Type} (p : α → Bool) (a b : List α)
    (h : ∀ x ∈ a, p x = true) :
    (a ++ b).takeWhile p = a ++ b.takeWhile p := by
  induction a with
  | nil => simp
  | cons c a' ih =>
      simp only [List.cons_append, List.takeWhile_cons, h c (List.mem_cons_self c a')]
      rw [ih (fun x hx => h x (List.mem_cons_of_mem c hx))]
      simp

/-- dropWhile over an append whose first part satisfies the predicate. -/
theorem dropWhile_append_all {α : Type} (p : α → Bool) (a b : List α)
    (h : ∀ x ∈ a, p x = true) :
    (a ++ b).dropWhile p = b.dropWhile p := by
  induction a with
  | nil => simp
  | cons c a' ih =>
      simp only [List.cons_append, List.dropWhile_cons, h c (List.mem_cons_self c a')]
      exact ih (fun x hx => h x (List.mem_cons_of_mem c hx))

/-- A list is a Boolean prefix of itself followed by anything. -/
theorem isPrefixOf_append_self (l r : List Char) : l.isPrefixOf (l ++ r) = true := by
  induction l with
  | nil => simp [List.isPrefixOf]
  | cons c l' ih => simp [List.isPrefixOf, ih]

/-- A needle no longer than the first part of an append is a prefix of
the append exactly when it is a prefix of the first part. -/
theorem isPrefixOf_append_of_le (needle a b : List Char)
    (h : needle.length ≤ a.length) :
    needle.isPrefixOf (a ++ b) = needle.isPrefixOf a := by
  induction needle generalizing a with
  | nil => simp [List.isPrefixOf]
  | cons n ns ih =>
      cases a with
      | nil => simp at h
      | cons c a' =>
          simp only [List.cons_append, List.isPrefixOf, List.append_eq]
          rw [ih a' (by simpa using h)]

/-- Splitting a substring-free fact at a cons cell. -/
theorem hasSubstr_cons_false (needle : List Char) (c : Char) (rest : List Char)
    (h : JsonVal.hasSubstr needle (c :: rest) = false) :
    needle.isPrefixOf (c :: rest) = false ∧ JsonVal.hasSubstr needle rest = false := by
  simp only [JsonVal.hasSubstr, Bool.or_eq_false_iff] at h
  exact h

/-- A nonempty needle that is nowhere a substring is in particular not a
prefix. -/
theorem not_hasSubstr_not_prefix (needle l : List Char) (hn : needle ≠ [])
    (h : JsonVal.hasSubstr needle l = false) :
    needle.isPrefixOf l = false := by
  cases l with
  | nil =>
      cases needle with
      | nil => exact absurd rfl hn
      | cons x xs => rfl
  | cons c rest => exact (hasSubstr_cons_false needle c rest h).1

/-- A Boolean prefix of a list stays a prefix after dropping needle
characters from the right of the needle. -/
theorem isPrefixOf_of_append_isPrefixOf (x y l : List Char)
    (h : (x ++ y).isPrefixOf l = true) : x.isPrefixOf l = true := by
  rw [List.isPrefixOf_iff_prefix] at h ⊢
  exact (List.prefix_append x y).trans h

/-- The pattern .md) is not a prefix of name plus .md) for a nonempty
name that contains no .md substring. -/
theorem mdParen_not_prefix (name : List Char) (hne : name ≠ [])
    (h3 : JsonVal.hasSubstr ".md".data name = false) :
    (".md)".data).isPrefixOf (name ++ ".md)".data) = false := by
  match name, hne with
  | [d], _ =>
      show (".md)".data).isPrefixOf (d :: ".md)".data) = false
      simp [List.isPrefixOf, String.data]
  | [d, e], _ =>
      show (".md)".data).isPrefixOf (d :: e :: ".md)".data) = false
      simp [List.isPrefixOf, String.data]
  | [d, e, f], _ =>
      show (".md)".data).isPrefixOf (d :: e :: f :: ".md)".data) = false
      simp [List.isPrefixOf, String.data]
  | d :: e :: f :: g :: r, _ =>
      rw [isPrefixOf_append_of_le _ _ _ (by simp [String.data])]
      cases hp : (".md)".data).isPrefixOf (d :: e :: f :: g :: r) with
      | false => rfl
      | true =>
          exfalso
          have hmd : (".md".data).isPrefixOf (d :: e :: f :: g :: r) = true := by
            have : (".md".data ++ [')']).isPrefixOf (d :: e :: f :: g :: r) = true := hp
            exact isPrefixOf_of_append_isPrefixOf _ _ _ this
          have := not_hasSubstr_not_prefix ".md".data (d :: e :: f :: g :: r)
            (by simp [String.data]) h3
          rw [hmd] at this
          exact Bool.true_eq_false.mp this

/-- The pattern .md is not a prefix of name plus .md) for a nonempty name
that contains no .md substring. -/
theorem md_not_prefix (name : List Char) (hne : name ≠ [])
    (h3 : JsonVal.hasSubstr ".md".data name = false) :
    (".md".data).isPrefixOf (name ++ ".md)".data) = false := by
  match name, hne with
  | [d], _ =>
      show (".md".data).isPrefixOf (d :: ".md)".data) = false
      simp [List.isPrefixOf, String.data]
  | [d, e], _ =>
      show (".md".data).isPrefixOf (d :: e :: ".md)".data) = false
      simp [List.isPrefixOf, String.data]
  | d :: e :: f :: r, _ =>
      rw [isPrefixOf_append_of_le _ _ _ (by simp [String.data])]
      cases hp : (".md".data).isPrefixOf (d :: e :: f :: r) with
      | false => rfl
      | true =>
          exfalso
          have := not_hasSubstr_not_prefix ".md".data (d :: e :: f :: r)
            (by simp [String.data]) h3
          rw [hp] at this
          exact Bool.true_eq_false.mp this

/-- Evaluation of the markdown-pass non-greedy name search on a clean
name: the earliest .md) terminator is the final one. -/
theorem findNameMdParen_eval (name : List Char) :
    ∀ acc, name ≠ [] → '\n' ∉ name → JsonVal.hasSubstr ".md".data name = false →
      findNameMdParen (name.length + 4) acc (name ++ ".md)".data) =
        some (acc.reverse ++ name, []) := by
  induction name with
  | nil => intro acc h1 _ _; exact absurd rfl h1
  | cons c name' ih =>
      intro acc _ h2 h3
      have hcc : ¬ (c = '\n') := fun h => h2 (h ▸ List.mem_cons_self c name')
      have h2' : '\n' ∉ name' := fun hm => h2 (List.mem_cons_of_mem c hm)
      have h3' : JsonVal.hasSubstr ".md".data name' = false :=
        (hasSubstr_cons_false ".md".data c name' h3).2
      have hstep : findNameMdParen ((c :: name').length + 4) acc
          ((c :: name') ++ ".md)".data) =
          (if c = '\n' then none
           else if (".md)".data).isPrefixOf (name' ++ ".md)".data) then
             some ((c :: acc).reverse, (name' ++ ".md)".data).drop 4)
           else findNameMdParen (name'.length + 4) (c :: acc) (name' ++ ".md)".data)) := rfl
      rw [hstep, if_neg hcc]
      cases name' with
      | nil => simp [List.reverse_cons]
      | cons d name'' =>
          have hpre := mdParen_not_prefix (d :: name'') (by simp) h3'
          rw [if_neg (by rw [hpre]; simp)]
          rw [ih (c :: acc) (by simp) h2' h3']
          simp [List.reverse_cons, List.append_assoc]

/-- Evaluation of the bare-URL-pass non-greedy name search on a clean
name: the earliest .md with an accepted lookahead is the final one, and
the closing parenthesis is left unconsumed. -/
theorem findNameMdLk_eval (name : List Char) :
    ∀ acc, name ≠ [] → '\n' ∉ name → JsonVal.hasSubstr ".md".data name = false →
      findNameMdLk (name.length + 4) acc (name ++ ".md)".data) =
        some (acc.reverse ++ name, [')']) := by
  induction name with
  | nil => intro acc h1 _ _; exact absurd rfl h1
  | cons c name' ih =>
      intro acc _ h2 h3
      have hcc : ¬ (c = '\n') := fun h => h2 (h ▸ List.mem_cons_self c name')
      have h2' : '\n' ∉ name' := fun hm => h2 (List.mem_cons_of_mem c hm)
      have h3' : JsonVal.hasSubstr ".md".data name' = false :=
        (hasSubstr_cons_false ".md".data c name' h3).2
      have hstep : findNameMdLk ((c :: name').length + 4) acc
          ((c :: name') ++ ".md)".data) =
          (if c = '\n' then none
           else if (".md".data).isPrefixOf (name' ++ ".md)".data) &&
               lookaheadOk ((name' ++ ".md)".data).drop 3) then
             some ((c :: acc).reverse, (name' ++ ".md)".data).drop 3)
           else findNameMdLk (name'.length + 4) (c :: acc) (name' ++ ".md)".data)) := rfl
      rw [hstep, if_neg hcc]
      cases name' with
      | nil => simp [List.reverse_cons, lookaheadOk]
      | cons d name'' =>
          have hpre := md_not_prefix (d :: name'') (by simp) h3'
          rw [if_neg (by rw [hpre]; simp)]
          rw [ih (c :: acc) (by simp) h2' h3']
          simp [List.reverse_cons, List.append_assoc]

/-- pass1Go on an empty input. -/
theorem pass1Go_nil (fuel : Nat) : pass1Go fuel [] = [] := by
  cases fuel <;> rfl

/-- pass2Go on an empty input. -/
theorem pass2Go_nil (fuel : Nat) : pass2Go fuel [] = [] := by
  cases fuel <;> rfl

/-- One pass1Go step on a matching position. -/
theorem pass1Go_cons_some (fuel : Nat) (c : Char) (rest em r : List Char)
    (h : m1 (c :: rest) = some (em, r)) :
    pass1Go (fuel + 1) (c :: rest) = em ++ pass1Go fuel r := by
  simp only [pass1Go, h]

/-- One pass2Go step on a matching position. -/
theorem pass2Go_cons_some (fuel : Nat) (c : Char) (rest em r : List Char)
    (h : m2 (c :: rest) = some (em, r)) :
    pass2Go (fuel + 1) (c :: rest) = em ++ pass2Go fuel r := by
  simp only [pass2Go, h]

/-- One pass2Go step on a non-matching position. -/
theorem pass2Go_cons_none (fuel : Nat) (c : Char) (rest : List Char)
    (h : m2 (c :: rest) = none) :
    pass2Go (fuel + 1) (c :: rest) = c :: pass2Go fuel rest := by
  simp only [pass2Go, h]

/-- The markdown pass on an input whose head position matches with the
whole input consumed. -/
theorem pass1_keep_all (l em : List Char) (h : m1 l = some (em, [])) :
    pass1 l = em := by
  cases l with
  | nil => simp [m1] at h
  | cons c rest =>
      show pass1Go (rest.length + 1) (c :: rest) = em
      rw [pass1Go_cons_some rest.length c rest em [] h, pass1Go_nil]
      simp

/-- The bare-URL scan copies a block of positions where the matcher
fails. -/
theorem pass2Go_skip (a b : List Char)
    (h : ∀ i, i < a.length → m2 (a.drop i ++ b) = none) :
    pass2Go (a ++ b).length (a ++ b) = a ++ pass2Go b.length b := by
  induction a with
  | nil => simp
  | cons c a' ih =>
      have h0 : m2 (c :: (a' ++ b)) = none := by
        have := h 0 (by simp)
        simpa using this
      show pass2Go ((a' ++ b).length + 1) (c :: (a' ++ b)) = (c :: a') ++ pass2Go b.length b
      rw [pass2Go_cons_none _ _ _ h0]
      rw [ih (fun i hi => by
        have := h (i + 1) (by simp; omega)
        simpa using this)]
      rfl

/-- Markdown-link input of the unmapped-name property: display text
Intro, an internal transcript URL with the given raw name, no trailing
timestamp. -/
def c5Input (name : List Char) : List Char :=
  '[' :: "Intro".data ++ ']' :: '(' ::
    (TRANSCRIPT_URL_HEAD ++ (name ++ ".md)".data))

/-- The markdown-pass matcher keeps a whole markdown link unchanged when
the display text contains no closing bracket and the clean name has no
mapping entry. -/
theorem m1_keep (T name : List Char) (hTne : T ≠ []) (hTnb : ']' ∉ T)
    (h1 : name ≠ []) (h2 : '\n' ∉ name)
    (h3 : JsonVal.hasSubstr ".md".data name = false)
    (h5 : YOUTUBE_VIDEO_MAP.lookup (unquote (String.mk name)) = none) :
    m1 ('[' :: T ++ ']' :: '(' :: (TRANSCRIPT_URL_HEAD ++ (name ++ ".md)".data))) =
      some ('[' :: T ++ ']' :: '(' ::
        (TRANSCRIPT_URL_HEAD ++ (name ++ ".md)".data)), []) := by
  have hTp : ∀ x ∈ T, (fun c => decide (c ≠ ']')) x = true := by
    intro x hx
    simp only [decide_eq_true_eq]
    intro h
    exact hTnb (h ▸ hx)
  have hTempty : T.isEmpty = false := by
    cases T with
    | nil => exact absurd rfl hTne
    | cons a t => rfl
  have hlen : (name ++ ".md)".data).length = name.length + 4 := by
    simp [String.data]
  have hfind := findNameMdParen_eval name [] h1 h2 h3
  simp only [m1, List.cons_append]
  rw [takeWhile_append_all _ T _ hTp, dropWhile_append_all _ T _ hTp]
  rw [show List.takeWhile (fun c => decide (c ≠ ']'))
      (']' :: '(' :: (TRANSCRIPT_URL_HEAD ++ (name ++ ".md)".data))) = [] from by simp]
  rw [show List.dropWhile (fun c => decide (c ≠ ']'))
      (']' :: '(' :: (TRANSCRIPT_URL_HEAD ++ (name ++ ".md)".data))) =
      ']' :: '(' :: (TRANSCRIPT_URL_HEAD ++ (name ++ ".md)".data)) from by simp]
  simp only [List.append_nil]
  rw [if_neg (by rw [hTempty]; simp)]
  simp only [isPrefixOf_append_self, if_true, List.drop_left, hlen, hfind,
    List.reverse_nil, List.nil_append]
  simp only [matchTs, List.dropWhile_nil, tsCore, tsMMSS, List.length_nil, Nat.sub_zero,
    replaceWithYoutube, h5]
  rw [List.take_of_length_le (by simp [String.data])]

/-- The bare-URL-pass matcher on the unmapped internal URL keeps the
matched span unchanged and leaves the closing parenthesis unconsumed. -/
theorem m2_eval (name : List Char) (h1 : name ≠ []) (h2 : '\n' ∉ name)
    (h3 : JsonVal.hasSubstr ".md".data name = false)
    (h5 : YOUTUBE_VIDEO_MAP.lookup (unquote (String.mk name)) = none) :
    m2 (TRANSCRIPT_URL_HEAD ++ (name ++ ".md)".data)) =
      some (TRANSCRIPT_URL_HEAD ++ (name ++ ".md".data), [')']) := by
  have hlen : (name ++ ".md)".data).length = name.length + 4 := by
    simp [String.data]
  have hfind := findNameMdLk_eval name [] h1 h2 h3
  simp only [m2, isPrefixOf_append_self, if_true, List.drop_left, hlen, hfind,
    List.reverse_nil, List.nil_append, h5]
  have hsplit : TRANSCRIPT_URL_HEAD ++ (name ++ ".md)".data) =
      (TRANSCRIPT_URL_HEAD ++ (name ++ ".md".data)) ++ [')'] := by
    simp [List.append_assoc]
  rw [hsplit]
  have hl1 : ((TRANSCRIPT_URL_HEAD ++ (name ++ ".md".data)) ++ [')']).length -
      ([')'] : List Char).length =
      (TRANSCRIPT_URL_HEAD ++ (name ++ ".md".data)).length := by
    simp
  rw [hl1, List.take_left]

/-- One pass2Go step at the length fuel on a matching position. -/
theorem pass2Go_len_some (l em r : List Char) (h : m2 l = some (em, r)) :
    pass2Go l.length l = em ++ pass2Go (l.length - 1) r := by
  cases l with
  | nil => simp [m2, TRANSCRIPT_URL_HEAD] at h
  | cons c rest =>
      show pass2Go (rest.length + 1) (c :: rest) = _
      rw [pass2Go_cons_some rest.length c rest em r h]
      simp

/-- pass2Go leaves a single non-matching character alone. -/
theorem pass2Go_single (fuel : Nat) (c : Char) (hfuel : fuel ≠ 0)
    (h : m2 [c] = none) : pass2Go fuel [c] = [c] := by
  obtain ⟨k, rfl⟩ := Nat.exists_eq_succ_of_ne_zero hfuel
  rw [pass2Go_cons_none k c [] h, pass2Go_nil]

/-- The full rewriter is the identity on the unmapped-name markdown
link. -/
theorem transform_c5Input_id (name : List Char) (h1 : name ≠ [])
    (h2 : '\n' ∉ name) (h3 : JsonVal.hasSubstr ".md".data name = false)
    (h5 : YOUTUBE_VIDEO_MAP.lookup (unquote (String.mk name)) = none) :
    transform_transcript_urls_to_youtube (String.mk (c5Input name)) =
      String.mk (c5Input name) := by
  have hp1 : pass1 (c5Input name) = c5Input name := by
    apply pass1_keep_all
    have := m1_keep "Intro".data name (by decide) (by decide) h1 h2 h3 h5
    exact this
  have hsplit : c5Input name =
      "[Intro](".data ++ (TRANSCRIPT_URL_HEAD ++ (name ++ ".md)".data)) := rfl
  have hskip : ∀ i, i < ("[Intro](".data : List Char).length →
      m2 (("[Intro](".data : List Char).drop i ++
        (TRANSCRIPT_URL_HEAD ++ (name ++ ".md)".data))) = none := by
    intro i hi
    have hi8 : i < 8 := by simpa using hi
    interval_cases i <;> rfl
  have hp2 : pass2 (c5Input name) = c5Input name := by
    show pass2Go (c5Input name).length (c5Input name) = c5Input name
    rw [hsplit, pass2Go_skip _ _ hskip,
      pass2Go_len_some _ _ _ (m2_eval name h1 h2 h3 h5)]
    rw [pass2Go_single _ ')' (by simp [TRANSCRIPT_URL_HEAD, String.data]) rfl]
    simp [List.append_assoc]
  show String.mk (pass2 (pass1 (c5Input name))) = String.mk (c5Input name)
  rw [hp1, hp2]

set_option maxRecDepth 1000000

set_option maxHeartbeats 1000000

/-- C5, counterexample: a markdown link whose raw name has no mapping
entry is not always returned unchanged: when the unmapped name contains a
mapped name followed by .md and a space, the bare-URL pass rewrites the
inner span, producing a partially rewritten link. -/
theorem claim_C5_counterexample :
    transform_transcript_urls_to_youtube
        "[t](https://stj6lw7vswhnnhw.blob.core.windows.net/video-training/Davenport Machine Model B - Stocking.md x.md)" =
      "[t](https://www.youtube.com/watch?v=22tb3sbqquM x.md)" ∧
    YOUTUBE_VIDEO_MAP.lookup (unquote "Davenport Machine Model B - Stocking.md x") =
      none ∧
    transform_transcript_urls_to_youtube
        "[t](https://stj6lw7vswhnnhw.blob.core.windows.net/video-training/Davenport Machine Model B - Stocking.md x.md)" ≠
      "[t](https://stj6lw7vswhnnhw.blob.core.windows.net/video-training/Davenport Machine Model B - Stocking.md x.md)" := by
  refine ⟨rfl, rfl, ?_⟩
  intro h
  rw [show transform_transcript_urls_to_youtube
      "[t](https://stj6lw7vswhnnhw.blob.core.windows.net/video-training/Davenport Machine Model B - Stocking.md x.md)" =
      "[t](https://www.youtube.com/watch?v=22tb3sbqquM x.md)" from rfl] at h
  exact absurd h (by decide)

/-- C5 (amended): the concrete round trip holds: a markdown link to a
mapped transcript followed by the timestamp range 02:28-02:38 is
rewritten to the mapped YouTube id with start offset 148 and the
timestamp appended to the display text; a link with an unmapped name and
the same timestamp is returned byte-for-byte unchanged; and in general a
markdown link whose nonempty raw name contains no newline and no .md
substring, and whose percent-decoded name has no mapping entry, is
returned byte-for-byte unchanged. -/
theorem claim_C5 :
    transform_transcript_urls_to_youtube
        "[Intro](https://stj6lw7vswhnnhw.blob.core.windows.net/video-training/Davenport%20Machine%20Model%20B%20-%20Stocking.md) 02:28-02:38" =
      "[Intro 02:28-02:38](https://www.youtube.com/watch?v=22tb3sbqquM&t=148)" ∧
    transform_transcript_urls_to_youtube
        "[Intro](https://stj6lw7vswhnnhw.blob.core.windows.net/video-training/Nope.md) 02:28-02:38" =
      "[Intro](https://stj6lw7vswhnnhw.blob.core.windows.net/video-training/Nope.md) 02:28-02:38" ∧
    (∀ name : List Char, name ≠ [] → '\n' ∉ name →
       JsonVal.hasSubstr ".md".data name = false →
       YOUTUBE_VIDEO_MAP.lookup (unquote (String.mk name)) = none →
       transform_transcript_urls_to_youtube (String.mk (c5Input name)) =
         String.mk (c5Input name)) :=
  ⟨rfl, rfl, fun name h1 h2 h3 h5 => transform_c5Input_id name h1 h2 h3 h5⟩

/-- C5, witness: the unchanged-link statement applied to the concrete
unmapped name Nope. -/
theorem claim_C5_witness :
    transform_transcript_urls_to_youtube (String.mk (c5Input "Nope".data)) =
      String.mk (c5Input "Nope".data) :=
  claim_C5.2.2 "Nope".data (by decide) (by decide) (by decide) (by rfl)

/-! Idempotence development.  The rewriter is the bare-URL pass after the
markdown pass; the claim that it is idempotent reduces to two fixpoint
lemmas: the bare-URL pass is idempotent on arbitrary input, and the
markdown pass is the identity on the output of the full rewriter.  The
development starts with characterisations of the two matchers. -/

/-- The character list of the .md marker. -/
theorem md_data : ".md".data = ['.', 'm', 'd'] := rfl

/-- The name search of the bare-URL pass does not depend on the fuel
once the fuel covers the input length. -/
theorem findLk_fuel_eq (l : List Char) :
    ∀ (f1 f2 : Nat) (acc : List Char), l.length ≤ f1 → l.length ≤ f2 →
      findNameMdLk f1 acc l = findNameMdLk f2 acc l := by
  induction l with
  | nil =>
      intro f1 f2 acc _ _
      cases f1 <;> cases f2 <;> rfl
  | cons c r ih =>
      intro f1 f2 acc h1 h2
      cases f1 with
      | zero => simp at h1
      | succ g1 =>
          cases f2 with
          | zero => simp at h2
          | succ g2 =>
              simp only [findNameMdLk]
              rw [ih g1 g2 (c :: acc) (by simp at h1; omega) (by simp at h2; omega)]

/-- Success shape of the bare-URL name search: the input splits as the
found name, the .md marker and the remainder; the found name extends the
reversed accumulator by a nonempty newline-free core and the lookahead
accepts the remainder. -/
theorem findLk_shape :
    ∀ (l : List Char) (fuel : Nat) (acc nm rest : List Char),
      findNameMdLk fuel acc l = some (nm, rest) →
      ∃ core, nm = acc.reverse ++ core ∧ l = core ++ '.' :: 'm' :: 'd' :: rest ∧
        core ≠ [] ∧ '\n' ∉ core ∧ lookaheadOk rest = true := by
  intro l
  induction l with
  | nil =>
      intro fuel acc nm rest h
      cases fuel <;> simp [findNameMdLk] at h
  | cons c r ih =>
      intro fuel acc nm rest h
      cases fuel with
      | zero => simp [findNameMdLk] at h
      | succ g =>
          simp only [findNameMdLk] at h
          by_cases hc : c = '\n'
          · rw [if_pos hc] at h
            exact absurd h (by simp)
          · rw [if_neg hc] at h
            by_cases hchk : ((".md".data).isPrefixOf r && lookaheadOk (r.drop 3)) = true
            · rw [if_pos hchk] at h
              simp only [Option.some.injEq, Prod.mk.injEq] at h
              obtain ⟨hnm, hrest⟩ := h
              obtain ⟨hpre, hla⟩ :=
                (by simpa using hchk :
                  (".md".data).isPrefixOf r = true ∧ lookaheadOk (r.drop 3) = true)
              obtain ⟨t, ht⟩ := List.isPrefixOf_iff_prefix.mp hpre
              refine ⟨[c], ?_, ?_, by simp, by simp; exact fun h => hc h.symm, ?_⟩
              · rw [← hnm]; simp
              · have hdrop : r.drop 3 = t := by
                  rw [← ht, md_data]; rfl
                rw [← hrest, hdrop, ← ht, md_data]
                rfl
              · rw [← hrest]; exact hla
            · rw [if_neg hchk] at h
              obtain ⟨core', h1, h2, h3, h4, h5⟩ := ih g (c :: acc) nm rest h
              refine ⟨c :: core', ?_, ?_, by simp, ?_, h5⟩
              · rw [h1]; simp
              · rw [h2]; rfl
              · intro hm
                rcases List.mem_cons.mp hm with he | hm'
                · exact hc he.symm
                · exact h4 hm'

/-- Completeness of the bare-URL name search: on an input that carries a
candidate it does not fail. -/
theorem findLk_of_cand :
    ∀ (core : List Char), core ≠ [] → '\n' ∉ core →
      ∀ (rest : List Char), lookaheadOk rest = true →
      ∀ (fuel : Nat) (acc : List Char),
        (core ++ '.' :: 'm' :: 'd' :: rest).length ≤ fuel →
        findNameMdLk fuel acc (core ++ '.' :: 'm' :: 'd' :: rest) ≠ none := by
  intro core
  induction core with
  | nil => intro h; exact absurd rfl h
  | cons c core' ih =>
      intro _ hnl rest hla fuel acc hfuel
      cases fuel with
      | zero => simp at hfuel
      | succ g =>
          have hc : ¬ (c = '\n') := fun h => hnl (h ▸ List.mem_cons_self c core')
          simp only [List.cons_append, findNameMdLk, if_neg hc]
          split
          · simp
          · next hchk =>
              cases core' with
              | nil =>
                  exfalso
                  exact hchk (by simp [md_data, List.isPrefixOf, hla])
              | cons d core'' =>
                  exact ih (by simp) (fun hm => hnl (List.mem_cons_of_mem c hm)) rest hla g
                    (c :: acc) (by simp at hfuel ⊢; omega)

/-- Candidate of the bare-URL matcher: the input starts with the
transcript head followed by a nonempty newline-free raw name, the .md
marker and a remainder accepted by the lookahead. -/
def cand2 (l : List Char) : Prop :=
  ∃ core rest, l = TRANSCRIPT_URL_HEAD ++ core ++ '.' :: 'm' :: 'd' :: rest ∧
    core ≠ [] ∧ '\n' ∉ core ∧ lookaheadOk rest = true

/-- The bare-URL matcher fails when the transcript head is not a
prefix. -/
theorem m2_none_of_nohead (l : List Char)
    (hp : TRANSCRIPT_URL_HEAD.isPrefixOf l = false) : m2 l = none := by
  simp only [m2, hp]
  simp

/-- Evaluation of the bare-URL matcher from a successful name search. -/
theorem m2_eval_gen (u nm rest2 : List Char)
    (hf : findNameMdLk u.length [] u = some (nm, rest2)) :
    m2 (TRANSCRIPT_URL_HEAD ++ u) =
      (match YOUTUBE_VIDEO_MAP.lookup (unquote (String.mk nm)) with
       | none => some ((TRANSCRIPT_URL_HEAD ++ u).take
           ((TRANSCRIPT_URL_HEAD ++ u).length - rest2.length), rest2)
       | some vid => some (("https://www.youtube.com/watch?v=" ++ vid).data, rest2)) := by
  have hp : TRANSCRIPT_URL_HEAD.isPrefixOf (TRANSCRIPT_URL_HEAD ++ u) = true :=
    isPrefixOf_append_self _ _
  simp only [m2, hp, if_true, List.drop_left, hf]

/-- Evaluation of the bare-URL matcher from a failing name search. -/
theorem m2_eval_fail (u : List Char) (hf : findNameMdLk u.length [] u = none) :
    m2 (TRANSCRIPT_URL_HEAD ++ u) = none := by
  have hp : TRANSCRIPT_URL_HEAD.isPrefixOf (TRANSCRIPT_URL_HEAD ++ u) = true :=
    isPrefixOf_append_self _ _
  simp only [m2, hp, if_true, List.drop_left, hf]

/-- Success shape of the bare-URL matcher: the input splits around the
found name, and the emitted text is the matched span verbatim for an
unmapped name and the external link for a mapped one. -/
theorem m2_shape (l em r : List Char) (h : m2 l = some (em, r)) :
    ∃ core, l = TRANSCRIPT_URL_HEAD ++ core ++ '.' :: 'm' :: 'd' :: r ∧
      core ≠ [] ∧ '\n' ∉ core ∧ lookaheadOk r = true ∧
      ((YOUTUBE_VIDEO_MAP.lookup (unquote (String.mk core)) = none ∧
          em = TRANSCRIPT_URL_HEAD ++ core ++ ['.', 'm', 'd']) ∨
        (∃ vid, YOUTUBE_VIDEO_MAP.lookup (unquote (String.mk core)) = some vid ∧
          em = ("https://www.youtube.com/watch?v=" ++ vid).data)) := by
  cases hp : TRANSCRIPT_URL_HEAD.isPrefixOf l with
  | false => rw [m2_none_of_nohead l hp] at h; exact absurd h (by simp)
  | true =>
      obtain ⟨t, ht⟩ := List.isPrefixOf_iff_prefix.mp hp
      rw [← ht] at h
      cases hf : findNameMdLk t.length [] t with
      | none => rw [m2_eval_fail t hf] at h; exact absurd h (by simp)
      | some p =>
          obtain ⟨nm, rest⟩ := p
          rw [m2_eval_gen t nm rest hf] at h
          obtain ⟨core, hnm, hsplit, hne, hnl, hla⟩ := findLk_shape t t.length [] nm rest hf
          simp only [List.reverse_nil, List.nil_append] at hnm
          subst nm
          cases hlk : YOUTUBE_VIDEO_MAP.lookup (unquote (String.mk core)) with
          | none =>
              rw [hlk] at h
              simp only [Option.some.injEq, Prod.mk.injEq] at h
              obtain ⟨hem, hr⟩ := h
              subst hr
              refine ⟨core, by rw [← ht, hsplit]; simp, hne, hnl, hla, Or.inl ⟨hlk, ?_⟩⟩
              have hl2 : TRANSCRIPT_URL_HEAD ++ t =
                  (TRANSCRIPT_URL_HEAD ++ core ++ ['.', 'm', 'd']) ++ rest := by
                rw [hsplit]; simp
              rw [← hem, hl2]
              have hlen : ((TRANSCRIPT_URL_HEAD ++ core ++ ['.', 'm', 'd']) ++ rest).length -
                  rest.length = (TRANSCRIPT_URL_HEAD ++ core ++ ['.', 'm', 'd']).length := by
                simp
                omega
              rw [hlen, List.take_left]
          | some vid =>
              rw [hlk] at h
              simp only [Option.some.injEq, Prod.mk.injEq] at h
              obtain ⟨hem, hr⟩ := h
              subst hr
              exact ⟨core, by rw [← ht, hsplit]; simp, hne, hnl, hla,
                Or.inr ⟨vid, hlk, hem.symm⟩⟩

/-- On a candidate input the bare-URL matcher does not fail. -/
theorem m2_ne_none_of_cand (l : List Char) (hc : cand2 l) : m2 l ≠ none := by
  obtain ⟨core, rest, hl, hne, hnl, hla⟩ := hc
  subst hl
  rw [List.append_assoc]
  cases hf : findNameMdLk (core ++ '.' :: 'm' :: 'd' :: rest).length []
      (core ++ '.' :: 'm' :: 'd' :: rest) with
  | none => exact absurd hf (findLk_of_cand core hne hnl rest hla _ [] (le_refl _))
  | some p =>
      obtain ⟨nm, rest2⟩ := p
      rw [m2_eval_gen _ nm rest2 hf]
      cases YOUTUBE_VIDEO_MAP.lookup (unquote (String.mk nm)) <;> simp

/-- A successful bare-URL match witnesses a candidate. -/
theorem m2_cand_of_some (l : List Char) (p : List Char × List Char)
    (h : m2 l = some p) : cand2 l := by
  obtain ⟨core, hl, hne, hnl, hla, _⟩ := m2_shape l p.1 p.2 (by rw [h])
  exact ⟨core, p.2, hl, hne, hnl, hla⟩

/-- The bare-URL matcher fails exactly on non-candidates. -/
theorem m2_none_iff (l : List Char) : m2 l = none ↔ ¬ cand2 l := by
  constructor
  · intro h hc
    exact m2_ne_none_of_cand l hc h
  · intro hc
    cases hm : m2 l with
    | none => rfl
    | some p => exact absurd (m2_cand_of_some l p hm) hc

/-- A bare-URL match consumes at least one character. -/
theorem m2_rest_lt (l em r : List Char) (h : m2 l = some (em, r)) :
    r.length < l.length := by
  obtain ⟨core, hl, hne, _, _, _⟩ := m2_shape l em r h
  have : core.length ≠ 0 := fun hz => hne (List.eq_nil_of_length_eq_zero hz)
  rw [hl]
  simp
  omega

/-- The bare-URL scan does not depend on the fuel once the fuel covers
the input length. -/
theorem pass2Go_fuel :
    ∀ (n : Nat) (l : List Char) (fuel : Nat), l.length ≤ n → l.length ≤ fuel →
      pass2Go fuel l = pass2Go l.length l := by
  intro n
  induction n with
  | zero =>
      intro l fuel h1 _
      have hl : l = [] := List.eq_nil_of_length_eq_zero (Nat.le_zero.mp h1)
      subst hl
      rw [pass2Go_nil, pass2Go_nil]
  | succ k ih =>
      intro l fuel h1 h2
      cases l with
      | nil => rw [pass2Go_nil, pass2Go_nil]
      | cons c rest =>
          cases fuel with
          | zero => simp at h2
          | succ g =>
              cases hm : m2 (c :: rest) with
              | none =>
                  rw [pass2Go_cons_none g c rest hm]
                  rw [show (c :: rest).length = rest.length + 1 from rfl]
                  rw [pass2Go_cons_none rest.length c rest hm]
                  rw [ih rest g (by simp at h1; omega) (by simp at h2; omega)]
              | some p =>
                  obtain ⟨em, r⟩ := p
                  have hlt := m2_rest_lt _ _ _ hm
                  simp only [List.length_cons] at hlt
                  rw [pass2Go_cons_some g c rest em r hm]
                  rw [show (c :: rest).length = rest.length + 1 from rfl]
                  rw [pass2Go_cons_some rest.length c rest em r hm]
                  rw [ih r g (by simp at h1; omega) (by simp at h2; omega),
                    ih r rest.length (by simp at h1; omega) (by omega)]

/-- The bare-URL pass on an empty input. -/
theorem pass2_nil : pass2 [] = [] := rfl

/-- The bare-URL pass copies a failing head position. -/
theorem pass2_cons_none (c : Char) (rest : List Char) (h : m2 (c :: rest) = none) :
    pass2 (c :: rest) = c :: pass2 rest := by
  show pass2Go (rest.length + 1) (c :: rest) = c :: pass2Go rest.length rest
  rw [pass2Go_cons_none rest.length c rest h]

/-- The bare-URL pass emits a match and continues after it. -/
theorem pass2_some (l em r : List Char) (h : m2 l = some (em, r)) :
    pass2 l = em ++ pass2 r := by
  have hlt := m2_rest_lt l em r h
  cases l with
  | nil =>
      rw [show m2 [] = none from rfl] at h
      exact absurd h (by simp)
  | cons c rest =>
      show pass2Go (rest.length + 1) (c :: rest) = em ++ pass2 r
      rw [pass2Go_cons_some rest.length c rest em r h]
      congr 1
      exact pass2Go_fuel rest.length r rest.length
        (by simp at hlt; omega) (by simp at hlt; omega)

/-- The external link text built by the bare-URL pass for a mapped
video id. -/
def ytd (vid : String) : List Char :=
  ("https://www.youtube.com/watch?v=" ++ vid).data

/-- The external link text spelt out as characters. -/
theorem ytd_eq (vid : String) :
    ytd vid = 'h' :: 't' :: 't' :: 'p' :: 's' :: ':' :: '/' :: '/' ::
      'w' :: 'w' :: 'w' :: '.' :: 'y' :: 'o' :: 'u' :: 't' :: 'u' :: 'b' :: 'e' ::
      '.' :: 'c' :: 'o' :: 'm' :: '/' :: 'w' :: 'a' :: 't' :: 'c' :: 'h' ::
      '?' :: 'v' :: '=' :: vid.data := rfl

/-- Boolean early-mismatch test between two character lists. -/
def mismatchW (n b : List Char) : Bool :=
  (List.range (min n.length b.length)).any fun i => decide (n.get? i ≠ b.get? i)

/-- A Boolean prefix agrees with the list on every index below its
length. -/
theorem isPrefixOf_get? (n : List Char) :
    ∀ (l : List Char), n.isPrefixOf l = true →
      ∀ i, i < n.length → l.get? i = n.get? i := by
  induction n with
  | nil => intro l _ i hi; simp at hi
  | cons a n' ih =>
      intro l h i hi
      cases l with
      | nil => simp [List.isPrefixOf] at h
      | cons b l' =>
          simp only [List.isPrefixOf, Bool.and_eq_true, beq_iff_eq] at h
          obtain ⟨hab, h'⟩ := h
          subst hab
          cases i with
          | zero => rfl
          | succ j =>
              simp only [List.get?]
              exact ih l' h' j (by simp at hi; omega)

/-- An early mismatch rules out the prefix relation whatever follows. -/
theorem not_pfx_of_mismatch (n b : List Char) (h : mismatchW n b = true)
    (w : List Char) : n.isPrefixOf (b ++ w) = false := by
  cases hp : n.isPrefixOf (b ++ w) with
  | false => rfl
  | true =>
      exfalso
      obtain ⟨i, hi, hne⟩ := List.any_eq_true.mp h
      have hir := List.mem_range.mp hi
      have h1 : i < n.length := lt_of_lt_of_le hir (min_le_left _ _)
      have h2 : i < b.length := lt_of_lt_of_le hir (min_le_right _ _)
      have hg := isPrefixOf_get? n (b ++ w) hp i h1
      have hb : (b ++ w).get? i = b.get? i := List.get?_append h2
      rw [hb] at hg
      exact (of_decide_eq_true hne) hg.symm

/-- Enumeration of the two-sided splits of the .md marker. -/
theorem md_split (x y : List Char) (h : x ++ y = ['.', 'm', 'd']) :
    (x = [] ∧ y = ['.', 'm', 'd']) ∨ (x = ['.'] ∧ y = ['m', 'd']) ∨
      (x = ['.', 'm'] ∧ y = ['d']) ∨ (x = ['.', 'm', 'd'] ∧ y = []) := by
  cases x with
  | nil => exact Or.inl ⟨rfl, by simpa using h⟩
  | cons a x' =>
      simp only [List.cons_append, List.cons.injEq] at h
      obtain ⟨ha, h⟩ := h
      subst ha
      cases x' with
      | nil => exact Or.inr (Or.inl ⟨rfl, by simpa using h⟩)
      | cons b x'' =>
          simp only [List.cons_append, List.cons.injEq] at h
          obtain ⟨hb, h⟩ := h
          subst hb
          cases x'' with
          | nil => exact Or.inr (Or.inr (Or.inl ⟨rfl, by simpa using h⟩))
          | cons c x''' =>
              simp only [List.cons_append, List.cons.injEq] at h
              obtain ⟨hc, h⟩ := h
              subst hc
              have hx : x''' = [] ∧ y = [] := by
                constructor
                · cases x''' with
                  | nil => rfl
                  | cons d t => simp at h
                · cases x''' with
                  | nil => simpa using h
                  | cons d t => simp at h
              exact Or.inr (Or.inr (Or.inr ⟨by rw [hx.1], hx.2⟩))

/-- getLast? of an append with a nonempty right part. -/
theorem getLastOpt_append (a b : List Char) (hb : b ≠ []) :
    (a ++ b).getLast? = b.getLast? := by
  induction a with
  | nil => rfl
  | cons c a' ih =>
      have hne : a' ++ b ≠ [] := fun h => hb (List.append_eq_nil.mp h).2
      rw [List.cons_append]
      cases hab : a' ++ b with
      | nil => exact absurd hab hne
      | cons d t => rw [List.getLast?_cons_cons, ← hab]; exact ih

/-- A lookup hit is a member of the association list. -/
theorem lookup_mem {k : String} {v : String} :
    ∀ (l : List (String × String)), l.lookup k = some v → (k, v) ∈ l := by
  intro l
  induction l with
  | nil => intro h; simp [List.lookup] at h
  | cons p l' ih =>
      intro h
      obtain ⟨a, b⟩ := p
      simp only [List.lookup] at h
      by_cases hk : k = a
      · subst hk
        have hkb : (k == k) = true := by simp
        rw [hkb] at h
        have h' : some b = some v := h
        have hbv : b = v := by simpa using h'
        subst hbv
        exact List.mem_cons_self _ _
      · have hkb : (k == a) = false := by simpa using hk
        rw [hkb] at h
        exact List.mem_cons_of_mem _ (ih h)

/-- A nonempty needle sitting anywhere inside a list is a substring. -/
theorem hasSubstr_of_split (needle : List Char) (hne : needle ≠ []) :
    ∀ (p s : List Char), JsonVal.hasSubstr needle (p ++ needle ++ s) = true := by
  intro p
  induction p with
  | nil =>
      intro s
      rw [List.nil_append]
      cases hns : needle ++ s with
      | nil => exact absurd (List.append_eq_nil.mp hns).1 hne
      | cons d u =>
          show (needle.isPrefixOf (d :: u) || JsonVal.hasSubstr needle u) = true
          rw [← hns, isPrefixOf_append_self]
          simp
  | cons c p' ih =>
      intro s
      rw [List.cons_append, List.cons_append]
      show (needle.isPrefixOf (c :: (p' ++ needle ++ s)) ||
        JsonVal.hasSubstr needle (p' ++ needle ++ s)) = true
      rw [ih s]
      simp

/-- The transcript head never starts at any offset of an external link,
whatever follows: there is an early mismatch everywhere. -/
theorem ytd_nohead (p : String × String) (hp : p ∈ YOUTUBE_VIDEO_MAP)
    (i : Nat) (hi : i < (ytd p.2).length) (w : List Char) :
    TRANSCRIPT_URL_HEAD.isPrefixOf ((ytd p.2).drop i ++ w) = false := by
  apply not_pfx_of_mismatch
  have hs : (YOUTUBE_VIDEO_MAP.all fun q =>
      (List.range (ytd q.2).length).all fun j =>
        mismatchW TRANSCRIPT_URL_HEAD ((ytd q.2).drop j)) = true := by rfl
  have h1 := List.all_eq_true.mp hs p hp
  exact List.all_eq_true.mp h1 i (List.mem_range.mpr hi)

/-- No suffix of the transcript head begins an external link. -/
theorem head_sfx_not_pfx_ytd (p : String × String) (hp : p ∈ YOUTUBE_VIDEO_MAP)
    (j : Nat) (hj : j < TRANSCRIPT_URL_HEAD.length) (w : List Char) :
    (TRANSCRIPT_URL_HEAD.drop j).isPrefixOf (ytd p.2 ++ w) = false := by
  apply not_pfx_of_mismatch
  have hs : (YOUTUBE_VIDEO_MAP.all fun q =>
      (List.range TRANSCRIPT_URL_HEAD.length).all fun j =>
        mismatchW (TRANSCRIPT_URL_HEAD.drop j) (ytd q.2)) = true := by rfl
  have h1 := List.all_eq_true.mp hs p hp
  exact List.all_eq_true.mp h1 j (List.mem_range.mpr hj)

/-- No external link begins a suffix of the transcript head. -/
theorem ytd_not_pfx_head_sfx (p : String × String) (hp : p ∈ YOUTUBE_VIDEO_MAP)
    (j : Nat) (hj : j < TRANSCRIPT_URL_HEAD.length) (w : List Char) :
    (ytd p.2).isPrefixOf (TRANSCRIPT_URL_HEAD.drop j ++ w) = false := by
  apply not_pfx_of_mismatch
  have hs : (YOUTUBE_VIDEO_MAP.all fun q =>
      (List.range TRANSCRIPT_URL_HEAD.length).all fun j =>
        mismatchW (ytd q.2) (TRANSCRIPT_URL_HEAD.drop j)) = true := by rfl
  have h1 := List.all_eq_true.mp hs p hp
  exact List.all_eq_true.mp h1 j (List.mem_range.mpr hj)

/-- The last character of an external link is none of the .md marker
characters. -/
theorem ytd_last (p : String × String) (hp : p ∈ YOUTUBE_VIDEO_MAP) :
    (ytd p.2).getLast? ≠ some '.' ∧ (ytd p.2).getLast? ≠ some 'm' ∧
      (ytd p.2).getLast? ≠ some 'd' := by
  have hs : (YOUTUBE_VIDEO_MAP.all fun q =>
      decide ((ytd q.2).getLast? ≠ some '.') &&
      decide ((ytd q.2).getLast? ≠ some 'm') &&
      decide ((ytd q.2).getLast? ≠ some 'd')) = true := by rfl
  have h1 := List.all_eq_true.mp hs p hp
  simp only [Bool.and_eq_true, decide_eq_true_eq] at h1
  exact ⟨h1.1.1, h1.1.2, h1.2⟩

/-- The .md marker is not a substring of any external link. -/
theorem ytd_no_md (p : String × String) (hp : p ∈ YOUTUBE_VIDEO_MAP) :
    JsonVal.hasSubstr ['.', 'm', 'd'] (ytd p.2) = false := by
  have hs : (YOUTUBE_VIDEO_MAP.all fun q =>
      !(JsonVal.hasSubstr ['.', 'm', 'd'] (ytd q.2))) = true := by rfl
  have h1 := List.all_eq_true.mp hs p hp
  simpa using h1

/-- External link text contains no newline. -/
theorem ytd_no_nl (p : String × String) (hp : p ∈ YOUTUBE_VIDEO_MAP) :
    '\n' ∉ ytd p.2 := by
  have hs : (YOUTUBE_VIDEO_MAP.all fun q =>
      !((ytd q.2).any fun c => c == '\n')) = true := by rfl
  have h1 := List.all_eq_true.mp hs p hp
  intro hm
  rw [Bool.not_eq_true'] at h1
  have : (ytd p.2).any (fun c => c == '\n') = true :=
    List.any_eq_true.mpr ⟨'\n', hm, by simp⟩
  rw [h1] at this
  exact absurd this (by simp)

/-- The transcript head contains no newline. -/
theorem head_no_nl : '\n' ∉ TRANSCRIPT_URL_HEAD := by decide

/-- The transcript head is nonempty. -/
theorem head_ne_nil : TRANSCRIPT_URL_HEAD ≠ [] := by decide

/-- External link text is nonempty. -/
theorem ytd_ne_nil (vid : String) : ytd vid ≠ [] := by
  rw [ytd_eq]; simp

/-- The lookahead class rejects the letter h, hence the start of an
external link. -/
theorem ytd_lookahead (vid : String) (w : List Char) :
    lookaheadOk (ytd vid ++ w) = false := rfl

/-- Non-membership splits over an append. -/
theorem not_mem_append {c : Char} {a b : List Char} (ha : c ∉ a) (hb : c ∉ b) :
    c ∉ a ++ b := fun hm => (List.mem_append.mp hm).elim ha hb

/-- Non-membership in the left part of an append. -/
theorem not_mem_left {c : Char} {a b : List Char} (h : c ∉ a ++ b) : c ∉ a :=
  fun hm => h (List.mem_append_left b hm)

/-- Non-membership in the right part of an append. -/
theorem not_mem_right {c : Char} {a b : List Char} (h : c ∉ a ++ b) : c ∉ b :=
  fun hm => h (List.mem_append_right a hm)

/-- The lookahead depends only on the head character. -/
theorem lookahead_cons_eq (e : Char) (x y : List Char) :
    lookaheadOk (e :: x) = lookaheadOk (e :: y) := rfl

/-- A span of the bare-URL pass contains no newline. -/
theorem span_no_nl (core0 : List Char) (hnl0 : '\n' ∉ core0) :
    '\n' ∉ TRANSCRIPT_URL_HEAD ++ core0 ++ ['.', 'm', 'd'] :=
  not_mem_append (not_mem_append head_no_nl hnl0) (by decide)

/-- Construction step of the swap lemma: when the external link together
with a tail fills the region between the head of a candidate and its .md
marker, substituting the original span back yields a candidate again. -/
theorem cand2_swap_core (u b2 c1 rest1 core0 : List Char) (vid : String)
    (k : String) (hk : (k, vid) ∈ YOUTUBE_VIDEO_MAP)
    (hne0 : core0 ≠ []) (hnl0 : '\n' ∉ core0)
    (heqc : u ++ (ytd vid ++ b2) = TRANSCRIPT_URL_HEAD ++ c1)
    (hnl1 : '\n' ∉ c1) (hla1 : lookaheadOk rest1 = true) :
    cand2 (u ++ (TRANSCRIPT_URL_HEAD ++ core0 ++ ['.', 'm', 'd']) ++
      (b2 ++ ['.', 'm', 'd'] ++ rest1)) := by
  rcases List.append_eq_append_iff.mp heqc with ⟨a2, hH, hYb⟩ | ⟨w, hu, hc1⟩
  · -- the consumed prefix u lies inside the head
    rcases List.append_eq_append_iff.mp hYb with ⟨x, ha2, hb2⟩ | ⟨y3, hY, hc1b⟩
    · -- the external link would sit inside the head: impossible
      exfalso
      subst ha2
      have hyl : 0 < (ytd vid).length := by
        cases hy : ytd vid with
        | nil => exact absurd hy (ytd_ne_nil vid)
        | cons a t => simp [hy]
      have hlen : u.length < TRANSCRIPT_URL_HEAD.length := by
        have := congrArg List.length hH
        simp at this
        omega
      have hdropH : TRANSCRIPT_URL_HEAD.drop u.length = ytd vid ++ x := by
        rw [hH]; exact List.drop_left _ _
      have htrue : (ytd vid).isPrefixOf (TRANSCRIPT_URL_HEAD.drop u.length ++ []) = true := by
        rw [List.append_nil, hdropH]
        exact isPrefixOf_append_self _ _
      have hfalse := ytd_not_pfx_head_sfx (k, vid) hk u.length hlen []
      rw [htrue] at hfalse
      exact absurd hfalse (by simp)
    · -- u together with a head suffix: the suffix must be empty
      cases a2 with
      | cons e a2' =>
          exfalso
          have hlen : u.length < TRANSCRIPT_URL_HEAD.length := by
            have := congrArg List.length hH
            simp at this
            omega
          have hdropH : TRANSCRIPT_URL_HEAD.drop u.length = e :: a2' := by
            rw [hH]; exact List.drop_left _ _
          have htrue : (TRANSCRIPT_URL_HEAD.drop u.length).isPrefixOf
              (ytd vid ++ []) = true := by
            rw [List.append_nil, hdropH, hY]
            exact isPrefixOf_append_self _ _
          have hfalse := head_sfx_not_pfx_ytd (k, vid) hk u.length hlen []
          rw [htrue] at hfalse
          exact absurd hfalse (by simp)
      | nil =>
          have hu : u = TRANSCRIPT_URL_HEAD := by
            rw [hH]; simp
          have hy3 : y3 = ytd vid := by
            rw [hY]; simp
          subst hy3
          refine ⟨(TRANSCRIPT_URL_HEAD ++ core0 ++ ['.', 'm', 'd']) ++ b2, rest1,
            ?_, by simp, ?_, hla1⟩
          · rw [hu]
            simp [List.append_assoc]
          · refine not_mem_append (span_no_nl core0 hnl0) ?_
            rw [hc1b] at hnl1
            exact not_mem_right hnl1
  · -- the head lies inside u: the general substitution
    refine ⟨w ++ (TRANSCRIPT_URL_HEAD ++ core0 ++ ['.', 'm', 'd']) ++ b2, rest1,
      ?_, by simp, ?_, hla1⟩
    · rw [hu]
      simp [List.append_assoc]
    · rw [hc1] at hnl1
      have hw : '\n' ∉ w := not_mem_left hnl1
      have hb2 : '\n' ∉ b2 := not_mem_right (not_mem_right hnl1)
      exact not_mem_append (not_mem_append hw (span_no_nl core0 hnl0)) hb2

/-- Swap lemma: replacing an external link back by the span it replaced
preserves bare-URL candidates. -/
theorem cand2_yt_swap (u core0 r : List Char) (vid : String)
    (k : String) (hk : (k, vid) ∈ YOUTUBE_VIDEO_MAP)
    (hne0 : core0 ≠ []) (hnl0 : '\n' ∉ core0)
    (hc : cand2 (u ++ ytd vid ++ r)) :
    cand2 (u ++ (TRANSCRIPT_URL_HEAD ++ core0 ++ ['.', 'm', 'd']) ++ r) := by
  obtain ⟨c1, rest1, heq, hne1, hnl1, hla1⟩ := hc
  have heq2 : u ++ (ytd vid ++ r) =
      ((TRANSCRIPT_URL_HEAD ++ c1) ++ ['.', 'm', 'd']) ++ rest1 := by
    rw [← List.append_assoc, heq]
    simp [List.append_assoc]
  rcases List.append_eq_append_iff.mp heq2 with ⟨a1, hP, hYr⟩ | ⟨c2, hu, hrest1⟩
  · -- the candidate marker ends at or after the start of the link
    rcases List.append_eq_append_iff.mp hYr with ⟨b1, ha1, hr⟩ | ⟨y2, hY, hrest1b⟩
    · -- the marker region lies at or after the end of the link
      subst ha1
      have hP2 : (TRANSCRIPT_URL_HEAD ++ c1) ++ ['.', 'm', 'd'] =
          (u ++ ytd vid) ++ b1 := by
        rw [hP]; simp [List.append_assoc]
      rcases List.append_eq_append_iff.mp hP2 with ⟨a2, huY, hmd⟩ | ⟨b2, hHc1, hb1⟩
      · -- the .md marker straddles the end of the link
        rcases md_split a2 b1 hmd.symm with ⟨hx, hy⟩ | ⟨hx, hy⟩ | ⟨hx, hy⟩ | ⟨hx, hy⟩
        · -- marker entirely beyond: reduces to the construction step
          subst hx hy
          have heqc : u ++ (ytd vid ++ []) = TRANSCRIPT_URL_HEAD ++ c1 := by
            simpa using huY
          have := cand2_swap_core u [] c1 rest1 core0 vid k hk hne0 hnl0 heqc hnl1 hla1
          rw [hr]
          simpa using this
        · -- the link would end with a dot
          exfalso
          have hlast : (ytd vid).getLast? = some '.' := by
            have h1 : (u ++ ytd vid).getLast? =
                ((TRANSCRIPT_URL_HEAD ++ c1) ++ ['.']).getLast? := by rw [hx] at huY; rw [huY]
            rw [getLastOpt_append u (ytd vid) (ytd_ne_nil vid)] at h1
            rw [getLastOpt_append _ ['.'] (by simp)] at h1
            simpa using h1
          exact (ytd_last (k, vid) hk).1 hlast
        · -- the link would end with the letter m
          exfalso
          have hlast : (ytd vid).getLast? = some 'm' := by
            have h1 : (u ++ ytd vid).getLast? =
                ((TRANSCRIPT_URL_HEAD ++ c1) ++ ['.', 'm']).getLast? := by
              rw [hx] at huY; rw [huY]
            rw [getLastOpt_append u (ytd vid) (ytd_ne_nil vid)] at h1
            rw [getLastOpt_append _ ['.', 'm'] (by simp)] at h1
            simpa using h1
          exact (ytd_last (k, vid) hk).2.1 hlast
        · -- the link would end with the letter d
          exfalso
          have hlast : (ytd vid).getLast? = some 'd' := by
            have h1 : (u ++ ytd vid).getLast? =
                ((TRANSCRIPT_URL_HEAD ++ c1) ++ ['.', 'm', 'd']).getLast? := by
              rw [hx] at huY; rw [huY]
            rw [getLastOpt_append u (ytd vid) (ytd_ne_nil vid)] at h1
            rw [getLastOpt_append _ ['.', 'm', 'd'] (by simp)] at h1
            simpa using h1
          exact (ytd_last (k, vid) hk).2.2 hlast
      · -- the marker lies beyond the link with a gap: construction step
        have heqc : u ++ (ytd vid ++ b2) = TRANSCRIPT_URL_HEAD ++ c1 := by
          rw [hHc1]; simp [List.append_assoc]
        have := cand2_swap_core u b2 c1 rest1 core0 vid k hk hne0 hnl0 heqc hnl1 hla1
        rw [hr, hb1]
        simpa [List.append_assoc] using this
    · -- the candidate marker ends inside the link: impossible
      exfalso
      rcases List.append_eq_append_iff.mp hP with ⟨x, hux, hmd⟩ | ⟨c2, hHc1, ha1⟩
      · rcases md_split x a1 hmd.symm with ⟨hx, hy⟩ | ⟨hx, hy⟩ | ⟨hx, hy⟩ | ⟨hx, hy⟩
        · -- link starts with the marker
          subst hy
          rw [ytd_eq] at hY
          simp at hY
        · -- link starts with the letter m
          subst hy
          rw [ytd_eq] at hY
          simp at hY
        · -- link starts with the letter d
          subst hy
          rw [ytd_eq] at hY
          simp at hY
        · -- marker entirely inside u: the lookahead faces the link
          subst hy
          have hy2 : y2 = ytd vid := by rw [hY]; simp
          subst hy2
          rw [hrest1b] at hla1
          rw [ytd_lookahead] at hla1
          exact absurd hla1 (by simp)
      · -- the marker is a substring of the link: impossible
        have hsub : JsonVal.hasSubstr ['.', 'm', 'd'] (ytd vid) = true := by
          rw [hY, ha1]
          exact hasSubstr_of_split ['.', 'm', 'd'] (by simp) c2 y2
        rw [ytd_no_md (k, vid) hk] at hsub
        exact absurd hsub (by simp)
  · -- the whole candidate lies inside u
    cases c2 with
    | nil =>
        exfalso
        rw [hrest1] at hla1
        rw [show ([] : List Char) ++ (ytd vid ++ r) = ytd vid ++ r from rfl] at hla1
        rw [ytd_lookahead] at hla1
        exact absurd hla1 (by simp)
    | cons e c2' =>
        refine ⟨c1, (e :: c2') ++
          (TRANSCRIPT_URL_HEAD ++ core0 ++ ['.', 'm', 'd']) ++ r, ?_, hne1, hnl1, ?_⟩
        · rw [hu]
          simp [List.append_assoc]
        · rw [hrest1] at hla1
          rw [show (e :: c2') ++ (ytd vid ++ r) = e :: (c2' ++ (ytd vid ++ r)) from rfl]
            at hla1
          rw [show (e :: c2') ++ (TRANSCRIPT_URL_HEAD ++ core0 ++ ['.', 'm', 'd']) ++ r =
            e :: (c2' ++ (TRANSCRIPT_URL_HEAD ++ core0 ++ ['.', 'm', 'd']) ++ r) from by simp]
          rw [lookahead_cons_eq e _ (c2' ++ (ytd vid ++ r))]
          exact hla1

/-- Candidate transfer: a bare-URL candidate over a processed tail pulls
back to a candidate over the unprocessed tail, for any consumed
prefix. -/
theorem cand2_transfer :
    ∀ (n : Nat) (w : List Char), w.length ≤ n →
      ∀ (u : List Char), cand2 (u ++ pass2 w) → cand2 (u ++ w) := by
  intro n
  induction n with
  | zero =>
      intro w h1 u hc
      have hw : w = [] := List.eq_nil_of_length_eq_zero (Nat.le_zero.mp h1)
      subst hw
      exact hc
  | succ nk ih =>
      intro w h1 u hc
      cases w with
      | nil => exact hc
      | cons c rest =>
          cases hm : m2 (c :: rest) with
          | none =>
              rw [pass2_cons_none c rest hm] at hc
              have hc2 : cand2 ((u ++ [c]) ++ pass2 rest) := by
                rw [List.append_assoc]
                exact hc
              have hres := ih rest (by simp at h1; omega) (u ++ [c]) hc2
              rw [List.append_assoc] at hres
              exact hres
          | some p =>
              obtain ⟨em, r⟩ := p
              obtain ⟨core, hsplit, hne, hnl, hla, hcase⟩ := m2_shape _ _ _ hm
              have hp2 : pass2 (c :: rest) = em ++ pass2 r := pass2_some _ _ _ hm
              rw [hp2] at hc
              rw [← List.append_assoc] at hc
              have hrlen : r.length ≤ nk := by
                have := m2_rest_lt _ _ _ hm
                simp at this h1
                omega
              rcases hcase with ⟨hlk, hem⟩ | ⟨vid, hlk, hem⟩
              · subst hem
                have hres := ih r hrlen
                  (u ++ (TRANSCRIPT_URL_HEAD ++ core ++ ['.', 'm', 'd'])) hc
                rw [hsplit]
                rw [show u ++ (TRANSCRIPT_URL_HEAD ++ core ++ '.' :: 'm' :: 'd' :: r) =
                  (u ++ (TRANSCRIPT_URL_HEAD ++ core ++ ['.', 'm', 'd'])) ++ r from by
                    simp [List.append_assoc]]
                exact hres
              · subst hem
                have hres := ih r hrlen
                  (u ++ ("https://www.youtube.com/watch?v=" ++ vid).data) hc
                have hyt : cand2 (u ++ ytd vid ++ r) := hres
                have hsw := cand2_yt_swap u core r vid (unquote (String.mk core))
                  (lookup_mem _ hlk) hne hnl hyt
                rw [hsplit]
                rw [show u ++ (TRANSCRIPT_URL_HEAD ++ core ++ '.' :: 'm' :: 'd' :: r) =
                  u ++ (TRANSCRIPT_URL_HEAD ++ core ++ ['.', 'm', 'd']) ++ r from by
                    simp [List.append_assoc]]
                exact hsw

/-- head? of an append with a nonempty left part. -/
theorem headQ_append_ne (a b : List Char) (ha : a ≠ []) :
    (a ++ b).head? = a.head? := by
  cases a with
  | nil => exact absurd rfl ha
  | cons c t => rfl

/-- The bare-URL pass preserves the head character. -/
theorem pass2_headQ (x : List Char) : (pass2 x).head? = x.head? := by
  cases x with
  | nil => rfl
  | cons c rest =>
      cases hm : m2 (c :: rest) with
      | none => rw [pass2_cons_none c rest hm]; rfl
      | some p =>
          obtain ⟨em, r⟩ := p
          rw [pass2_some _ _ _ hm]
          obtain ⟨core, hsplit, hne, hnl, hla, hcase⟩ := m2_shape _ _ _ hm
          rcases hcase with ⟨hlk, hem⟩ | ⟨vid, hlk, hem⟩
          · subst hem
            rw [hsplit]
            rw [headQ_append_ne _ _ (by
              intro h
              exact head_ne_nil (List.append_eq_nil.mp (List.append_eq_nil.mp h).1).1)]
            rw [headQ_append_ne _ _ (by
              intro h
              exact head_ne_nil (List.append_eq_nil.mp h).1)]
            rw [headQ_append_ne _ _ head_ne_nil]
            rw [headQ_append_ne (TRANSCRIPT_URL_HEAD ++ core) _ (by
              intro h
              exact head_ne_nil (List.append_eq_nil.mp h).1)]
            rw [headQ_append_ne _ _ head_ne_nil]
          · subst hem
            rw [hsplit]
            rw [show ("https://www.youtube.com/watch?v=" ++ vid).data = ytd vid from rfl]
            rw [headQ_append_ne _ _ (ytd_ne_nil vid)]
            rw [headQ_append_ne (TRANSCRIPT_URL_HEAD ++ core) _ (by
              intro h
              exact head_ne_nil (List.append_eq_nil.mp h).1)]
            rw [headQ_append_ne _ _ head_ne_nil]
            rfl

/-- The lookahead depends only on head?. -/
theorem lookahead_headQ (x y : List Char) (h : x.head? = y.head?) :
    lookaheadOk x = lookaheadOk y := by
  cases x with
  | nil =>
      cases y with
      | nil => rfl
      | cons d t => simp at h
  | cons c s =>
      cases y with
      | nil => simp at h
      | cons d t =>
          simp only [List.head?] at h
          have : c = d := by simpa using h
          subst this
          exact lookahead_cons_eq c s t

/-- Taking the matched span out of a split input. -/
theorem take_span (core z : List Char) :
    (TRANSCRIPT_URL_HEAD ++ (core ++ '.' :: 'm' :: 'd' :: z)).take
      ((TRANSCRIPT_URL_HEAD ++ (core ++ '.' :: 'm' :: 'd' :: z)).length - z.length) =
    TRANSCRIPT_URL_HEAD ++ core ++ ['.', 'm', 'd'] := by
  have h : TRANSCRIPT_URL_HEAD ++ (core ++ '.' :: 'm' :: 'd' :: z) =
      (TRANSCRIPT_URL_HEAD ++ core ++ ['.', 'm', 'd']) ++ z := by
    simp [List.append_assoc]
  rw [h]
  have hlen : ((TRANSCRIPT_URL_HEAD ++ core ++ ['.', 'm', 'd']) ++ z).length - z.length =
      (TRANSCRIPT_URL_HEAD ++ core ++ ['.', 'm', 'd']).length := by
    simp
    omega
  rw [hlen, List.take_left]

/-- Success shape of the bare-URL matcher together with the equation of
its name search, for replaying the match on a rewritten remainder. -/
theorem m2_find (l em r : List Char) (h : m2 l = some (em, r)) :
    ∃ core, l = TRANSCRIPT_URL_HEAD ++ core ++ '.' :: 'm' :: 'd' :: r ∧
      core ≠ [] ∧ '\n' ∉ core ∧ lookaheadOk r = true ∧
      findNameMdLk (core ++ '.' :: 'm' :: 'd' :: r).length []
        (core ++ '.' :: 'm' :: 'd' :: r) = some (core, r) ∧
      ((YOUTUBE_VIDEO_MAP.lookup (unquote (String.mk core)) = none ∧
          em = TRANSCRIPT_URL_HEAD ++ core ++ ['.', 'm', 'd']) ∨
        (∃ vid, YOUTUBE_VIDEO_MAP.lookup (unquote (String.mk core)) = some vid ∧
          em = ("https://www.youtube.com/watch?v=" ++ vid).data)) := by
  cases hp : TRANSCRIPT_URL_HEAD.isPrefixOf l with
  | false => rw [m2_none_of_nohead l hp] at h; exact absurd h (by simp)
  | true =>
      obtain ⟨t, ht⟩ := List.isPrefixOf_iff_prefix.mp hp
      rw [← ht] at h
      cases hf : findNameMdLk t.length [] t with
      | none => rw [m2_eval_fail t hf] at h; exact absurd h (by simp)
      | some p =>
          obtain ⟨nm, rest⟩ := p
          rw [m2_eval_gen t nm rest hf] at h
          obtain ⟨core, hnm, hsplit, hne, hnl, hla⟩ := findLk_shape t t.length [] nm rest hf
          simp only [List.reverse_nil, List.nil_append] at hnm
          subst nm
          have hf2 : findNameMdLk (core ++ '.' :: 'm' :: 'd' :: rest).length []
              (core ++ '.' :: 'm' :: 'd' :: rest) = some (core, rest) := by
            rw [← hsplit]; exact hf
          cases hlk : YOUTUBE_VIDEO_MAP.lookup (unquote (String.mk core)) with
          | none =>
              rw [hlk] at h
              simp only [Option.some.injEq, Prod.mk.injEq] at h
              obtain ⟨hem, hr⟩ := h
              subst hr
              refine ⟨core, by rw [← ht, hsplit]; simp, hne, hnl, hla, hf2,
                Or.inl ⟨hlk, ?_⟩⟩
              rw [← hem, hsplit]
              exact take_span core rest
          | some vid =>
              rw [hlk] at h
              simp only [Option.some.injEq, Prod.mk.injEq] at h
              obtain ⟨hem, hr⟩ := h
              subst hr
              exact ⟨core, by rw [← ht, hsplit]; simp, hne, hnl, hla, hf2,
                Or.inr ⟨vid, hlk, hem.symm⟩⟩

/-- The .md prefix test at an interior position does not depend on the
text beyond the final marker. -/
theorem pfx3_indep (core1 z z' : List Char) (hne : core1 ≠ []) :
    (".md".data).isPrefixOf (core1 ++ '.' :: 'm' :: 'd' :: z) =
      (".md".data).isPrefixOf (core1 ++ '.' :: 'm' :: 'd' :: z') := by
  cases core1 with
  | nil => exact absurd rfl hne
  | cons d1 t1 =>
      cases t1 with
      | nil => simp [md_data, List.isPrefixOf]
      | cons d2 t2 =>
          cases t2 with
          | nil => simp [md_data, List.isPrefixOf]
          | cons d3 t3 => simp [md_data, List.isPrefixOf]

/-- The lookahead test at an interior position does not depend on the
text beyond the final marker. -/
theorem la3_indep (core1 z z' : List Char) (hne : core1 ≠ []) :
    lookaheadOk ((core1 ++ '.' :: 'm' :: 'd' :: z).drop 3) =
      lookaheadOk ((core1 ++ '.' :: 'm' :: 'd' :: z').drop 3) := by
  cases core1 with
  | nil => exact absurd rfl hne
  | cons d1 t1 =>
      cases t1 with
      | nil => exact lookahead_cons_eq 'd' z z'
      | cons d2 t2 =>
          cases t2 with
          | nil => exact lookahead_cons_eq 'm' _ _
          | cons d3 t3 =>
              cases t3 with
              | nil => exact lookahead_cons_eq '.' _ _
              | cons d4 t4 =>
                  show lookaheadOk (d4 :: (t4 ++ '.' :: 'm' :: 'd' :: z)) =
                    lookaheadOk (d4 :: (t4 ++ '.' :: 'm' :: 'd' :: z'))
                  exact lookahead_cons_eq d4 _ _

/-- Replaying the bare-URL name search with a different remainder that
the lookahead also accepts gives the same name. -/
theorem findLk_swap :
    ∀ (core z z' acc nm : List Char),
      lookaheadOk z = true → lookaheadOk z' = true →
      findNameMdLk (core ++ '.' :: 'm' :: 'd' :: z).length acc
        (core ++ '.' :: 'm' :: 'd' :: z) = some (nm, z) →
      findNameMdLk (core ++ '.' :: 'm' :: 'd' :: z').length acc
        (core ++ '.' :: 'm' :: 'd' :: z') = some (nm, z') := by
  intro core
  induction core with
  | nil =>
      intro z z' acc nm hz hz' hf
      exfalso
      obtain ⟨core1, _, hsplit, hne1, _, _⟩ := findLk_shape _ _ _ _ _ hf
      have hl := congrArg List.length hsplit
      simp only [List.length_append, List.length_cons, List.length_nil] at hl
      exact hne1 (List.eq_nil_of_length_eq_zero (by omega))
  | cons c core' ih =>
      intro z z' acc nm hz hz' hf
      rw [List.cons_append, show ((c :: (core' ++ '.' :: 'm' :: 'd' :: z)).length) =
        (core' ++ '.' :: 'm' :: 'd' :: z).length + 1 from rfl] at hf
      rw [List.cons_append, show ((c :: (core' ++ '.' :: 'm' :: 'd' :: z')).length) =
        (core' ++ '.' :: 'm' :: 'd' :: z').length + 1 from rfl]
      simp only [findNameMdLk] at hf ⊢
      by_cases hc : c = '\n'
      · rw [if_pos hc] at hf
        exact absurd hf (by simp)
      · rw [if_neg hc] at hf
        rw [if_neg hc]
        cases core' with
        | nil =>
            have hchk : ((".md".data).isPrefixOf ([] ++ '.' :: 'm' :: 'd' :: z) &&
                lookaheadOk (([] ++ '.' :: 'm' :: 'd' :: z).drop 3)) = true := by
              simp [md_data, List.isPrefixOf, hz]
            have hchk2 : ((".md".data).isPrefixOf ([] ++ '.' :: 'm' :: 'd' :: z') &&
                lookaheadOk (([] ++ '.' :: 'm' :: 'd' :: z').drop 3)) = true := by
              simp [md_data, List.isPrefixOf, hz']
            rw [if_pos hchk] at hf
            rw [if_pos hchk2]
            simp only [Option.some.injEq, Prod.mk.injEq] at hf ⊢
            exact ⟨hf.1, by simp⟩
        | cons d core'' =>
            by_cases hchk : ((".md".data).isPrefixOf ((d :: core'') ++ '.' :: 'm' :: 'd' :: z) &&
                lookaheadOk (((d :: core'') ++ '.' :: 'm' :: 'd' :: z).drop 3)) = true
            · exfalso
              rw [if_pos hchk] at hf
              simp only [Option.some.injEq, Prod.mk.injEq] at hf
              have := congrArg List.length hf.2
              simp at this
              omega
            · rw [if_neg hchk] at hf
              have hchk2 : ¬ ((".md".data).isPrefixOf ((d :: core'') ++ '.' :: 'm' :: 'd' :: z') &&
                  lookaheadOk (((d :: core'') ++ '.' :: 'm' :: 'd' :: z').drop 3)) = true := by
                rw [← pfx3_indep (d :: core'') z z' (by simp),
                  ← la3_indep (d :: core'') z z' (by simp)]
                exact hchk
              rw [if_neg hchk2]
              exact ih z z' (c :: acc) nm hz hz' hf

/-- The bare-URL pass is idempotent, by strong induction on length. -/
theorem pass2_idem_go :
    ∀ (n : Nat) (w : List Char), w.length ≤ n → pass2 (pass2 w) = pass2 w := by
  intro n
  induction n with
  | zero =>
      intro w h1
      have hw : w = [] := List.eq_nil_of_length_eq_zero (Nat.le_zero.mp h1)
      subst hw
      rfl
  | succ nk ih =>
      intro w h1
      cases w with
      | nil => rfl
      | cons c rest =>
          cases hm : m2 (c :: rest) with
          | none =>
              rw [pass2_cons_none c rest hm]
              have hnone : m2 (c :: pass2 rest) = none := by
                rw [m2_none_iff]
                intro hcand
                have ht := cand2_transfer rest.length rest (le_refl _) [c] hcand
                exact (m2_none_iff _).mp hm ht
              rw [pass2_cons_none c (pass2 rest) hnone]
              rw [ih rest (by simp at h1; omega)]
          | some p =>
              obtain ⟨em, r⟩ := p
              obtain ⟨core, hsplit, hne, hnl, hla, hfind, hcase⟩ := m2_find _ _ _ hm
              rw [pass2_some _ _ _ hm]
              have hrlen : r.length ≤ nk := by
                have := m2_rest_lt _ _ _ hm
                simp at this h1
                omega
              have hla2 : lookaheadOk (pass2 r) = true := by
                rw [lookahead_headQ (pass2 r) r (pass2_headQ r)]
                exact hla
              rcases hcase with ⟨hlk, hem⟩ | ⟨vid, hlk, hem⟩
              · subst hem
                have hswap := findLk_swap core r (pass2 r) [] core hla hla2 hfind
                have hm2 : m2 ((TRANSCRIPT_URL_HEAD ++ core ++ ['.', 'm', 'd']) ++ pass2 r) =
                    some (TRANSCRIPT_URL_HEAD ++ core ++ ['.', 'm', 'd'], pass2 r) := by
                  rw [show (TRANSCRIPT_URL_HEAD ++ core ++ ['.', 'm', 'd']) ++ pass2 r =
                    TRANSCRIPT_URL_HEAD ++ (core ++ '.' :: 'm' :: 'd' :: pass2 r) from by
                      simp [List.append_assoc]]
                  rw [m2_eval_gen _ core (pass2 r) hswap]
                  simp only [hlk]
                  rw [take_span core (pass2 r)]
                rw [pass2_some _ _ _ hm2]
                rw [ih r hrlen]
              · subst hem
                have hskip : ∀ i, i < (ytd vid).length →
                    m2 ((ytd vid).drop i ++ pass2 r) = none := by
                  intro i hi
                  apply m2_none_of_nohead
                  exact ytd_nohead (unquote (String.mk core), vid) (lookup_mem _ hlk) i hi _
                have hp : pass2 (ytd vid ++ pass2 r) = ytd vid ++ pass2 (pass2 r) := by
                  show pass2Go (ytd vid ++ pass2 r).length (ytd vid ++ pass2 r) = _
                  rw [pass2Go_skip _ _ hskip]
                  rfl
                rw [show ("https://www.youtube.com/watch?v=" ++ vid).data = ytd vid from rfl]
                rw [hp, ih r hrlen]

/-- The bare-URL pass is idempotent. -/
theorem pass2_idem (w : List Char) : pass2 (pass2 w) = pass2 w :=
  pass2_idem_go w.length w (le_refl _)

/-- C4, counterexample: the rewriter is not idempotent.  The input is a
markdown link whose URL region contains a mapped bare transcript URL
with a whitespace lookahead, a second bare transcript URL acting as a
shield, and an inner markdown link to a mapped transcript.  The first
application rewrites only the leading bare URL: the markdown pass keeps
the outer link (its raw name decodes to no table entry) and the
bare-URL pass, after rewriting the leading URL, consumes the shield URL
together with the inner link as one unmapped span.  The second
application then fails to match the outer link (its URL now starts with
the external host), walks inside, and rewrites the inner markdown link,
so the second output differs from the first. -/
theorem claim_C4_counterexample :
    transform_transcript_urls_to_youtube
        "[t](https://stj6lw7vswhnnhw.blob.core.windows.net/video-training/Davenport Machine Model B - Stocking.md https://stj6lw7vswhnnhw.blob.core.windows.net/video-training/[s](https://stj6lw7vswhnnhw.blob.core.windows.net/video-training/Davenport Machine Model B - Stocking.md)" =
      "[t](https://www.youtube.com/watch?v=22tb3sbqquM https://stj6lw7vswhnnhw.blob.core.windows.net/video-training/[s](https://stj6lw7vswhnnhw.blob.core.windows.net/video-training/Davenport Machine Model B - Stocking.md)" ∧
    transform_transcript_urls_to_youtube
        "[t](https://www.youtube.com/watch?v=22tb3sbqquM https://stj6lw7vswhnnhw.blob.core.windows.net/video-training/[s](https://stj6lw7vswhnnhw.blob.core.windows.net/video-training/Davenport Machine Model B - Stocking.md)" =
      "[t](https://www.youtube.com/watch?v=22tb3sbqquM https://stj6lw7vswhnnhw.blob.core.windows.net/video-training/[s](https://www.youtube.com/watch?v=22tb3sbqquM)" ∧
    ("[t](https://www.youtube.com/watch?v=22tb3sbqquM https://stj6lw7vswhnnhw.blob.core.windows.net/video-training/[s](https://www.youtube.com/watch?v=22tb3sbqquM)" : String) ≠
      "[t](https://www.youtube.com/watch?v=22tb3sbqquM https://stj6lw7vswhnnhw.blob.core.windows.net/video-training/[s](https://stj6lw7vswhnnhw.blob.core.windows.net/video-training/Davenport Machine Model B - Stocking.md)" :=
  ⟨rfl, rfl, by decide⟩

/-- C4 (amended): the bare-URL pass alone is idempotent on arbitrary
input, but the full rewriter is not: there is an input text on which a
second application changes the output again, because rewriting a bare
URL inside the URL region of a kept markdown link breaks the markdown
match and exposes a previously shielded inner link to the markdown pass
of the second run. -/
theorem claim_C4 :
    (∀ w : List Char, pass2 (pass2 w) = pass2 w) ∧
    (∃ s : String, transform_transcript_urls_to_youtube
        (transform_transcript_urls_to_youtube s) ≠
      transform_transcript_urls_to_youtube s) :=
  ⟨pass2_idem,
    ⟨"[t](https://stj6lw7vswhnnhw.blob.core.windows.net/video-training/Davenport Machine Model B - Stocking.md https://stj6lw7vswhnnhw.blob.core.windows.net/video-training/[s](https://stj6lw7vswhnnhw.blob.core.windows.net/video-training/Davenport Machine Model B - Stocking.md)",
      by decide⟩⟩

end DavenportGateway
